import Mathlib

/-!
Shallow embedding of the `state-unemp-automation` pipeline
(`src/validate.py`, `src/clean.py`, `src/states.py`).

Machine floats of the Python source are modelled as `Rat`: every comparison
performed by the source (`<`, `>=`, `!=`, `==`) on the rates and on the gate
fraction is order-embedding-faithful at the values the pipeline handles
(decimal literals; the verdicts of `count / 50 > 0.40` agree with the exact
rational comparison for every integer `count`).  Python strings are modelled
as `String` (whose `data` is the list of code points, matching Python's
code-point-lexicographic comparison).
-/

namespace StateUnemp

/-! ### String helpers (Python `str.strip`, `str.upper`, lexicographic order) -/

/-- Whitespace stripped by Python `str.strip()` (ASCII subset; the pipeline
only ever feeds it spreadsheet text). -/
def pyWS (c : Char) : Bool :=
  c = ' ' || c = '\t' || c = '\n' || c = '\r' || c = '\x0b' || c = '\x0c'

def stripChars (l : List Char) : List Char :=
  ((l.dropWhile pyWS).reverse.dropWhile pyWS).reverse

/-- Python `s.strip()`. -/
def pyStrip (s : String) : String := String.mk (stripChars s.data)

/-- Python `s.upper()` (ASCII case map, which is all the source exercises). -/
def pyUpper (s : String) : String := String.mk (s.data.map Char.toUpper)

/-- Code-point lexicographic `<=` on character lists: Python's string order. -/
def charsLe : List Char → List Char → Bool
  | [], _ => true
  | _ :: _, [] => false
  | a :: as, b :: bs => if a = b then charsLe as bs else decide (a < b)

/-- Python `s <= t` on strings. -/
def strLe (s t : String) : Bool := charsLe s.data t.data

/-! ### Python `int(...)` and number parsing -/

def digitVal (c : Char) : Nat := c.toNat - 48

def digitsToNat : Nat → List Char → Option Nat
  | acc, [] => some acc
  | acc, c :: cs => if c.isDigit then digitsToNat (acc * 10 + digitVal c) cs else none

/-- Parse a nonempty all-digit character list. -/
def parseDigits : List Char → Option Nat
  | [] => none
  | l => digitsToNat 0 l

/-- Python `int(s)` restricted to what the pipeline feeds it: optional
surrounding whitespace, an optional single sign, then decimal digits. -/
def parseIntChars (l : List Char) : Option Int :=
  match stripChars l with
  | '+' :: rest => (parseDigits rest).map fun n => (n : Int)
  | '-' :: rest => (parseDigits rest).map fun n => -(n : Int)
  | rest => (parseDigits rest).map fun n => (n : Int)

/-- Python `float(s)` restricted to plain decimal literals
(`[ws][sign]digits[.digits][ws]`); anything else fails, which is the only
behaviour the validated claims depend on (non-numeric strings are rejected). -/
def parseRatChars (l : List Char) : Option Rat :=
  match stripChars l with
  | [] => none
  | l₁ =>
    let signed : Bool × List Char :=
      match l₁ with
      | '+' :: rest => (false, rest)
      | '-' :: rest => (true, rest)
      | rest => (false, rest)
    let core := signed.2
    let mk : Nat → Nat → Nat → Rat := fun ip fp fplen =>
      ((ip : Rat) * (10 : Rat) ^ fplen + (fp : Rat)) / (10 : Rat) ^ fplen
    let val : Option Rat :=
      match core.splitOn '.' with
      | [ipart] => (parseDigits ipart).map fun n => (n : Rat)
      | [ipart, fpart] =>
        match ipart, fpart with
        | [], [] => none
        | [], f => (parseDigits f).map fun n => mk 0 n f.length
        | i, [] => (parseDigits i).map fun n => (n : Rat)
        | i, f => do
          let ni ← parseDigits i
          let nf ← parseDigits f
          pure (mk ni nf f.length)
      | _ => none
    val.map fun q => if signed.1 then -q else q

/-! ### Date helpers (`_DATE_PATTERN`, `_normalize_date`, `_prev_month`,
`_prev_month_date`) -/

/-- `validate._normalize_date`: the regex `^(4 digits)(dash or slash)(2 digits)$`
matched against `raw.strip()`, returning the two digit groups joined by a dash. -/
def normalizeDate (raw : String) : Option String :=
  match stripChars raw.data with
  | [a, b, c, d, sep, e, f] =>
    if a.isDigit && b.isDigit && c.isDigit && d.isDigit &&
       (sep = '-' || sep = '/') && e.isDigit && f.isDigit
    then some (String.mk [a, b, c, d, '-', e, f])
    else none
  | _ => none

/-- Python `s.split("-")` (on the code points of `s`). -/
def splitDash : List Char → List (List Char)
  | [] => [[]]
  | c :: cs =>
    if c = '-' then [] :: splitDash cs
    else match splitDash cs with
      | [] => [[c]]
      | p :: ps => (c :: p) :: ps

/-- Python `f"{n:02d}"`. -/
def pad2 (n : Int) : String :=
  if 0 ≤ n ∧ n < 10 then "0" ++ toString n else toString n

/-- `validate._prev_month`: `'YYYY-MM' → previous month`; `none` models the
`ValueError` Python raises when the string does not split into two ints. -/
def prevMonth (ym : String) : Option String :=
  match splitDash ym.data with
  | [y, m] =>
    match parseIntChars y, parseIntChars m with
    | some yi, some mi =>
      let mi' := mi - 1
      if mi' = 0 then some (toString (yi - 1) ++ "-" ++ pad2 12)
      else some (toString yi ++ "-" ++ pad2 mi')
    | _, _ => none
  | _ => none

/-- `clean._prev_month_date`: first of the preceding month as `'YYYY-MM-DD'`;
`none` models the uncaught `ValueError` on unsplittable input. -/
def prevMonthDate (ym : String) : Option String :=
  match splitDash ym.data with
  | [y, m] =>
    match parseIntChars y, parseIntChars m with
    | some yi, some mi =>
      let mi' := mi - 1
      if mi' = 0 then some (toString (yi - 1) ++ "-" ++ pad2 12 ++ "-01")
      else some (toString yi ++ "-" ++ pad2 mi' ++ "-01")
    | _, _ => none
  | _ => none

/-! ### The state reference table (`states.py`) -/

structure StateInfo where
  name : String
  usps_code : String
  fips_code : String
  census_region : String
  census_division : String

def STATES : List StateInfo := [
  ⟨"Alabama", "AL", "01", "South", "East South Central"⟩,
  ⟨"Alaska", "AK", "02", "West", "Pacific"⟩,
  ⟨"Arizona", "AZ", "04", "West", "Mountain"⟩,
  ⟨"Arkansas", "AR", "05", "South", "West South Central"⟩,
  ⟨"California", "CA", "06", "West", "Pacific"⟩,
  ⟨"Colorado", "CO", "08", "West", "Mountain"⟩,
  ⟨"Connecticut", "CT", "09", "Northeast", "New England"⟩,
  ⟨"Delaware", "DE", "10", "South", "South Atlantic"⟩,
  ⟨"Florida", "FL", "12", "South", "South Atlantic"⟩,
  ⟨"Georgia", "GA", "13", "South", "South Atlantic"⟩,
  ⟨"Hawaii", "HI", "15", "West", "Pacific"⟩,
  ⟨"Idaho", "ID", "16", "West", "Mountain"⟩,
  ⟨"Illinois", "IL", "17", "Midwest", "East North Central"⟩,
  ⟨"Indiana", "IN", "18", "Midwest", "East North Central"⟩,
  ⟨"Iowa", "IA", "19", "Midwest", "West North Central"⟩,
  ⟨"Kansas", "KS", "20", "Midwest", "West North Central"⟩,
  ⟨"Kentucky", "KY", "21", "South", "East South Central"⟩,
  ⟨"Louisiana", "LA", "22", "South", "West South Central"⟩,
  ⟨"Maine", "ME", "23", "Northeast", "New England"⟩,
  ⟨"Maryland", "MD", "24", "South", "South Atlantic"⟩,
  ⟨"Massachusetts", "MA", "25", "Northeast", "New England"⟩,
  ⟨"Michigan", "MI", "26", "Midwest", "East North Central"⟩,
  ⟨"Minnesota", "MN", "27", "Midwest", "West North Central"⟩,
  ⟨"Mississippi", "MS", "28", "South", "East South Central"⟩,
  ⟨"Missouri", "MO", "29", "Midwest", "West North Central"⟩,
  ⟨"Montana", "MT", "30", "West", "Mountain"⟩,
  ⟨"Nebraska", "NE", "31", "Midwest", "West North Central"⟩,
  ⟨"Nevada", "NV", "32", "West", "Mountain"⟩,
  ⟨"New Hampshire", "NH", "33", "Northeast", "New England"⟩,
  ⟨"New Jersey", "NJ", "34", "Northeast", "Middle Atlantic"⟩,
  ⟨"New Mexico", "NM", "35", "West", "Mountain"⟩,
  ⟨"New York", "NY", "36", "Northeast", "Middle Atlantic"⟩,
  ⟨"North Carolina", "NC", "37", "South", "South Atlantic"⟩,
  ⟨"North Dakota", "ND", "38", "Midwest", "West North Central"⟩,
  ⟨"Ohio", "OH", "39", "Midwest", "East North Central"⟩,
  ⟨"Oklahoma", "OK", "40", "South", "West South Central"⟩,
  ⟨"Oregon", "OR", "41", "West", "Pacific"⟩,
  ⟨"Pennsylvania", "PA", "42", "Northeast", "Middle Atlantic"⟩,
  ⟨"Rhode Island", "RI", "44", "Northeast", "New England"⟩,
  ⟨"South Carolina", "SC", "45", "South", "South Atlantic"⟩,
  ⟨"South Dakota", "SD", "46", "Midwest", "West North Central"⟩,
  ⟨"Tennessee", "TN", "47", "South", "East South Central"⟩,
  ⟨"Texas", "TX", "48", "South", "West South Central"⟩,
  ⟨"Utah", "UT", "49", "West", "Mountain"⟩,
  ⟨"Vermont", "VT", "50", "Northeast", "New England"⟩,
  ⟨"Virginia", "VA", "51", "South", "South Atlantic"⟩,
  ⟨"Washington", "WA", "53", "West", "Pacific"⟩,
  ⟨"West Virginia", "WV", "54", "South", "South Atlantic"⟩,
  ⟨"Wisconsin", "WI", "55", "Midwest", "East North Central"⟩,
  ⟨"Wyoming", "WY", "56", "West", "Mountain"⟩]

/-- `states.get_state_by_code`: case-insensitive lookup in the `_BY_CODE`
dict (keys `usps_code.upper()`, unique, insertion order ⇒ first match). -/
def getStateByCode (code : String) : Option StateInfo :=
  STATES.find? fun st => pyUpper st.usps_code == pyUpper code

/-! ### Configuration constants (`validate.py`) -/

def IMPLAUSIBLE_RATE_LOWER_BOUND : Rat := 0
def IMPLAUSIBLE_RATE_UPPER_BOUND : Rat := 100
def RATE_WARNING_THRESHOLD : Rat := 15
/-- Python literal `0.40`; the float verdict of `count / 50 > 0.40` coincides
with the exact `2/5` comparison for every integer `count`. -/
def PUBLISH_GATE_THRESHOLD : Rat := 2 / 5
def TOTAL_STATES : Nat := 50

/-! ### Raw records, pydantic coercion, `ValidatedRow` -/

/-- A dynamically-typed spreadsheet cell as `_read_xlsx` hands it over. -/
inductive PyVal where
  | pyStr (s : String)
  | pyInt (n : Int)
  | pyFloat (q : Rat)
  | pyNone
deriving DecidableEq

/-- Python `str(v)`.  Floats render as their decimal expansion; the claims
never inspect a stringified float, so the exact repr formatting is
immaterial (integers and strings, which the claims do exercise, are exact). -/
def strOfPyVal : PyVal → String
  | .pyStr s => s
  | .pyInt n => toString n
  | .pyFloat q => toString q
  | .pyNone => "None"

/-- One raw row as a keyed record; `none` = key absent from the dict. -/
structure RawRecord where
  state : Option PyVal
  state_code : Option PyVal
  month : Option PyVal
  unemployment_rate : Option PyVal
  unemployment_rate_prev_month : Option PyVal
  source : Option PyVal
deriving DecidableEq

/-- pydantic (v2, non-strict) coercion into a `str` field: accepts exactly
strings. -/
def coerceStr : PyVal → Option String
  | .pyStr s => some s
  | _ => none

/-- pydantic coercion into a `float | None = None` field: absent key ⇒
default `None`; accepts `None`, numbers, and numeric strings. -/
def coerceRatField : Option PyVal → Option (Option Rat)
  | none => some none
  | some .pyNone => some none
  | some (.pyFloat q) => some (some q)
  | some (.pyInt n) => some (some (n : Rat))
  | some (.pyStr s) => (parseRatChars s.data).map some

/-- `RawRow` after successful pydantic validation. -/
structure RawRowS where
  state : String
  state_code : String
  month : String
  unemployment_rate : Option Rat
  unemployment_rate_prev_month : Option Rat
  source : String
deriving DecidableEq

/-- `RawRow(**raw_dict)`: `none` models the caught pydantic exception
(structural drop). -/
def pydanticRawRow (raw : RawRecord) : Option RawRowS := do
  let st ← raw.state.bind coerceStr
  let sc ← raw.state_code.bind coerceStr
  let mo ← raw.month.bind coerceStr
  let ur ← coerceRatField raw.unemployment_rate
  let up ← coerceRatField raw.unemployment_rate_prev_month
  let src ← raw.source.bind coerceStr
  pure ⟨st, sc, mo, ur, up, src⟩

/-- The pre-pydantic month fix-up in `_validate_row`:
`raw_dict["month"] = str(raw_dict["month"]).strip()` when present and not
`None`. -/
def coerceMonthVal : PyVal → PyVal
  | .pyNone => .pyNone
  | v => .pyStr (pyStrip (strOfPyVal v))

structure ValidatedRow where
  state_canonical : String
  state_code : String
  month_canonical : String
  unemployment_rate : Option Rat
  unemployment_rate_prev_month : Option Rat
  source : String
  source_row_index : Nat
  qa_flags : List String
  is_publishable : Bool
deriving DecidableEq

def unknownStateFlag (c : String) : String := "unknown_state_code: " ++ c

def nameNormalizedFlag (orig canon : String) : String :=
  "state_name_normalized: original='" ++ orig ++ "' canonical='" ++ canon ++ "'"

def unparseableDateFlag (m : String) : String := "unparseable_date: '" ++ m ++ "'"

def dateCorrectedFlag (orig canon : String) : String :=
  "date_corrected: original='" ++ orig ++ "' canonical='" ++ canon ++ "'"

def implausibleRateFlag (q : Rat) : String := "implausible_rate: " ++ toString q

def highRateFlag (q : Rat) : String := "rate_unusually_high: " ++ toString q

def rateConflictFlag (v c : Rat) (i : Nat) : String :=
  "rate_conflict: current=" ++ toString v ++ " vs prev_month=" ++ toString c ++
    " (from source row " ++ toString i ++ ")"

def imputedFlag (p : String) : String := "prev_month_imputed: sourced from " ++ p

/-- The rate-plausibility flags of `_validate_row` (absent / implausible /
unusually-high branches, in source order). -/
def rateFlagsOf : Option Rat → List String
  | none => ["missing_rate"]
  | some q =>
    if q < IMPLAUSIBLE_RATE_LOWER_BOUND ∨ IMPLAUSIBLE_RATE_UPPER_BOUND ≤ q then
      [implausibleRateFlag q]
    else if RATE_WARNING_THRESHOLD ≤ q then [highRateFlag q] else []

/-- The contribution of the rate-plausibility check to `is_publishable`. -/
def ratePubOf : Option Rat → Bool
  | none => false
  | some q =>
    decide (¬(q < IMPLAUSIBLE_RATE_LOWER_BOUND ∨ IMPLAUSIBLE_RATE_UPPER_BOUND ≤ q))

/-- The business-logic part of `_validate_row` (everything after the
pydantic parse).  Flags are appended in source order (state, date, rate,
prev-month); `is_publishable` is the conjunction of the blocking checks,
exactly as the sequence of `publishable = False` assignments computes it. -/
def businessChecks (r : RawRowS) (idx : Nat) : ValidatedRow :=
  let code := pyUpper (pyStrip r.state_code)
  let stref := getStateByCode code
  let canonical := match stref with
    | none => pyStrip r.state
    | some st => st.name
  let stateFlags := match stref with
    | none => [unknownStateFlag code]
    | some st =>
      if pyStrip r.state ≠ st.name then [nameNormalizedFlag (pyStrip r.state) st.name] else []
  let statePub := stref.isSome
  let mres := normalizeDate r.month
  let monthCanonical := match mres with
    | none => r.month
    | some m => m
  let dateFlags := match mres with
    | none => [unparseableDateFlag r.month]
    | some m => if pyStrip r.month ≠ m then [dateCorrectedFlag (pyStrip r.month) m] else []
  let datePub := mres.isSome
  let rateFlags := rateFlagsOf r.unemployment_rate
  let ratePub := ratePubOf r.unemployment_rate
  let prevFlags := if r.unemployment_rate_prev_month.isNone then ["missing_prev_month"] else []
  { state_canonical := canonical
    state_code := code
    month_canonical := monthCanonical
    unemployment_rate := r.unemployment_rate
    unemployment_rate_prev_month := r.unemployment_rate_prev_month
    source := r.source
    source_row_index := idx
    qa_flags := stateFlags ++ dateFlags ++ rateFlags ++ prevFlags
    is_publishable := statePub && datePub && ratePub }

/-- `validate._validate_row`. -/
def validateRow (raw : RawRecord) (idx : Nat) : Option ValidatedRow :=
  let raw1 : RawRecord := { raw with month := raw.month.map coerceMonthVal }
  match pydanticRawRow raw1 with
  | none => none
  | some r => some (businessChecks r idx)

/-! ### Cross-row reconciliation (`_check_rate_conflicts`,
`_check_prev_month_imputed`) and the publish gate.

The Python passes mutate the rows in place, but each pass first materialises
its whole-batch lookup (the claims map, resp. the will-have-value set) from
the pass-start state and then updates each row from its own pass-start fields
and that lookup only, so they are faithfully rendered as `List.map` over the
input list. -/

/-- The `prev_month_claims[(state_code, referenced_month)]` bucket, in list
order (`defaultdict` append order): claims come only from rows publishable at
pass start with a non-null prior rate and a splittable month. -/
def prevClaims (l : List ValidatedRow) (key : String × String) : List (Rat × Nat) :=
  l.filterMap fun r =>
    if r.is_publishable then
      match r.unemployment_rate_prev_month with
      | none => none
      | some p =>
        match prevMonth r.month_canonical with
        | none => none
        | some m =>
          if r.state_code = key.1 ∧ m = key.2 then some (p, r.source_row_index) else none
    else none

/-- The first claim in the bucket whose value differs from `v` (the Python
loop breaks after the first conflicting claim). -/
def firstConflict (claims : List (Rat × Nat)) (v : Rat) : Option (Rat × Nat) :=
  claims.find? fun c => decide (c.1 ≠ v)

/-- How `_check_rate_conflicts` transforms one row, given the pass-start
batch `l`. -/
def conflictStep (l : List ValidatedRow) (r : ValidatedRow) : ValidatedRow :=
  match r.unemployment_rate with
  | none => r
  | some v =>
    if r.is_publishable then
      match firstConflict (prevClaims l (r.state_code, r.month_canonical)) v with
      | some ci =>
        { r with qa_flags := r.qa_flags ++ [rateConflictFlag v ci.1 ci.2]
                 is_publishable := false }
      | none => r
    else r

/-- `validate._check_rate_conflicts`. -/
def checkRateConflicts (l : List ValidatedRow) : List ValidatedRow :=
  l.map (conflictStep l)

/-- Membership in the `will_have_value` set of `_check_prev_month_imputed`:
`(state_code, month)` pairs that will carry a long-format value after pivot. -/
def hasPivotValue (l : List ValidatedRow) (s m : String) : Bool :=
  l.any fun r =>
    r.is_publishable &&
    ((r.unemployment_rate.isSome && decide (r.state_code = s) &&
        decide (r.month_canonical = m)) ||
     (r.unemployment_rate_prev_month.isSome && decide (r.state_code = s) &&
        decide (prevMonth r.month_canonical = some m)))

/-- How `_check_prev_month_imputed` transforms one row. -/
def imputeStep (l : List ValidatedRow) (r : ValidatedRow) : ValidatedRow :=
  if r.is_publishable ∧ r.qa_flags.contains "missing_prev_month" then
    match prevMonth r.month_canonical with
    | none => r
    | some p =>
      if hasPivotValue l r.state_code p then
        { r with qa_flags := r.qa_flags ++ [imputedFlag p] }
      else r
  else r

/-- `validate._check_prev_month_imputed`. -/
def checkPrevMonthImputed (l : List ValidatedRow) : List ValidatedRow :=
  l.map (imputeStep l)

/-- The distinct state codes of the batch, in first-occurrence order (the
iteration order of the Python `defaultdict` grouping). -/
def distinctStates (l : List ValidatedRow) : List String :=
  (l.map (·.state_code)).eraseDups

/-- The state codes all of whose rows are unpublishable. -/
def fullyUnpublishableStates (l : List ValidatedRow) : List String :=
  (distinctStates l).filter fun s =>
    l.all fun r => !(decide (r.state_code = s)) || !r.is_publishable

/-- `validate._check_publish_gate`: `True` iff
`fully_unpublishable / TOTAL_STATES` does not exceed the threshold. -/
def checkPublishGate (l : List ValidatedRow) : Bool :=
  if ((fullyUnpublishableStates l).length : Rat) / (TOTAL_STATES : Rat) >
      PUBLISH_GATE_THRESHOLD
  then false
  else true

/-- `run_validation`'s per-row loop: 1-based spreadsheet indices starting at
2 (row 1 is the header), structurally invalid rows dropped. -/
def validateAll : Nat → List RawRecord → List ValidatedRow
  | _, [] => []
  | i, rec :: rest =>
    match validateRow rec i with
    | some vr => vr :: validateAll (i + 1) rest
    | none => validateAll (i + 1) rest

/-- The validated rows `run_validation` hands to the gate and to `run_clean`:
row validation followed by the two reconciliation passes. -/
def runValidationRows (raws : List RawRecord) : List ValidatedRow :=
  checkPrevMonthImputed (checkRateConflicts (validateAll 2 raws))

/-! ### The clean step (`clean.py`): filter, dedupe, sort, pivot -/

structure CleanRow where
  state_canonical : String
  state_code : String
  date : String
  value : Rat
  source : String
  ingest_run : String
  source_row_index : Nat
deriving DecidableEq

/-- `clean._pivot_row`.  `none` models the two ways the Python call site can
raise: `CleanRow(value=None)` (pydantic error when the current rate is null)
and the uncaught `ValueError` of `_prev_month_date` on an unsplittable month
when a prior rate is present. -/
def pivotRow (r : ValidatedRow) (ingest : String) : Option (List CleanRow) :=
  match r.unemployment_rate with
  | none => none
  | some v =>
    let cur : CleanRow :=
      { state_canonical := r.state_canonical, state_code := r.state_code
        date := r.month_canonical ++ "-01", value := v, source := r.source
        ingest_run := ingest, source_row_index := r.source_row_index }
    match r.unemployment_rate_prev_month with
    | none => some [cur]
    | some p =>
      (prevMonthDate r.month_canonical).map fun d =>
        [cur,
         { state_canonical := r.state_canonical, state_code := r.state_code
           date := d, value := p, source := r.source
           ingest_run := ingest, source_row_index := r.source_row_index }]

/-- The dedupe key of `run_clean`: `("state_code", "month_canonical",
"unemployment_rate", "unemployment_rate_prev_month")`. -/
def dedupeKey (r : ValidatedRow) : String × String × Option Rat × Option Rat :=
  (r.state_code, r.month_canonical, r.unemployment_rate, r.unemployment_rate_prev_month)

def dedupeGo (seen : List (String × String × Option Rat × Option Rat)) :
    List ValidatedRow → List ValidatedRow
  | [] => []
  | r :: rs =>
    if dedupeKey r ∈ seen then dedupeGo seen rs
    else r :: dedupeGo (dedupeKey r :: seen) rs

/-- `clean._dedupe` on the publishable rows (the model-dump/reconstruct
round trip of the source is the identity on field values). -/
def dedupe (l : List ValidatedRow) : List ValidatedRow := dedupeGo [] l

def monthLe (a b : ValidatedRow) : Bool := strLe a.month_canonical b.month_canonical

def insertByMonth (x : ValidatedRow) : List ValidatedRow → List ValidatedRow
  | [] => [x]
  | y :: ys => if monthLe x y then x :: y :: ys else y :: insertByMonth x ys

/-- `sorted(rows, key=lambda r: r.month_canonical)`: a stable insertion sort
keyed by `month_canonical`; any two stable sorts by the same key agree, so
this produces exactly Python's `sorted` output. -/
def sortByMonth : List ValidatedRow → List ValidatedRow
  | [] => []
  | x :: xs => insertByMonth x (sortByMonth xs)

/-- The `pivoted_lookup` dict, keyed by `(state_code, date)`. -/
def PMap : Type := String × String → Option CleanRow

/-- `pivoted_lookup[key] = clean_row`. -/
def updMap (m : PMap) (p : CleanRow) : PMap :=
  fun k => if k = (p.state_code, p.date) then some p else m k

/-- One emitted point: bump the revision counter iff the key is already
present with a different value, then overwrite (last-write-wins). -/
def updatePoint (acc : PMap × Nat) (p : CleanRow) : PMap × Nat :=
  let n := match acc.1 (p.state_code, p.date) with
    | some old => if old.value ≠ p.value then acc.2 + 1 else acc.2
    | none => acc.2
  (updMap acc.1 p, n)

/-- The pivot loop of `run_clean` over the sorted rows; `none` propagates a
raising `_pivot_row`. -/
def pivotGo (ingest : String) : PMap × Nat → List ValidatedRow → Option (PMap × Nat)
  | acc, [] => some acc
  | acc, r :: rs =>
    match pivotRow r ingest with
    | none => none
    | some pts => pivotGo ingest (pts.foldl updatePoint acc) rs

/-- The core of `run_clean`: filter to publishable rows, dedupe, sort
ascending by `month_canonical`, pivot with last-write-wins; returns the
final lookup together with the `revisions` counter. -/
def runCleanPivot (ingest : String) (l : List ValidatedRow) : Option (PMap × Nat) :=
  pivotGo ingest (fun _ => none, 0) (sortByMonth (dedupe (l.filter (·.is_publishable))))

/-- Only the map component of processing one row (used to reason about the
point set, which ignores the revision counter). -/
def applyRowMap (ingest : String) (m : PMap) (r : ValidatedRow) : PMap :=
  match pivotRow r ingest with
  | none => m
  | some pts => pts.foldl updMap m

/-- The set of `(state_code, date, value)` points produced by `run_clean`,
as the final lookup projected to values (at most one point per key). -/
def pivotValueMap (ingest : String) (l : List ValidatedRow) :
    Option (String × String → Option Rat) :=
  (runCleanPivot ingest l).map fun acc => fun k => (acc.1 k).map (·.value)

/-! ### Concrete rows and records used by witnesses and counterexamples -/

/-- A boolean prefix test on character lists (used to state "carries no flag
of category X" without string parsing). -/
def listPre : List Char → List Char → Bool
  | [], _ => true
  | _ :: _, [] => false
  | a :: as, b :: bs => a = b && listPre as bs

/-- A raw record whose six cells are a string state name, a string state
code, a string month, optional numeric rates (`None` cells when absent), and
a string source — the shape every structurally clean spreadsheet row has. -/
def mkStrRecord (stName code month : String) (rate prev : Option Rat)
    (src : String) : RawRecord :=
  ⟨some (.pyStr stName), some (.pyStr code), some (.pyStr month),
   match rate with | none => some .pyNone | some q => some (.pyFloat q),
   match prev with | none => some .pyNone | some q => some (.pyFloat q),
   some (.pyStr src)⟩

/-- Rows used by the C2 witness: `n` all-unpublishable single-row states. -/
def gateRows (n : Nat) : List ValidatedRow :=
  (List.range n).map fun i =>
    ⟨toString i, toString i, "2025-01", none, none, "s", 2, ["missing_rate"], false⟩

/-- A publishable New York row next to an unpublishable one (C2 witness). -/
def nyRows : List ValidatedRow :=
  [⟨"New York", "NY", "2025-01", some 5, none, "s", 2, [], true⟩,
   ⟨"New York", "NY", "2025-02", none, none, "s", 3, ["missing_rate"], false⟩]

/-- Rows for the C7 counterexample: the first row is unpublishable, carries
`missing_prev_month`, and its implied prior month is covered by the second
(publishable) row — yet the pass leaves it unchanged. -/
def c7row1 : ValidatedRow :=
  ⟨"California", "CA", "2025-02", none, none, "s", 2,
   ["missing_rate", "missing_prev_month"], false⟩

def c7row2 : ValidatedRow :=
  ⟨"California", "CA", "2025-01", some 5, none, "s", 3, ["missing_prev_month"], true⟩

/-- A publishable December row that covers `c7row2`'s implied prior month
(C7 witness). -/
def c7row3 : ValidatedRow := ⟨"California", "CA", "2024-12", some 4, none, "s", 4, [], true⟩

/-- Rows for the C3 counterexample: a three-row chain in which `c3B` both
supplies the claim that blocks `c3A` and is itself blocked by `c3C`. -/
def c3A : ValidatedRow := ⟨"California", "CA", "2025-01", some 27, none, "s", 2, [], true⟩

def c3B : ValidatedRow := ⟨"California", "CA", "2025-02", some 7, some 5, "s", 3, [], true⟩

def c3C : ValidatedRow := ⟨"California", "CA", "2025-03", some 4, some 6, "s", 4, [], true⟩

/-- The raw record of the C8 counterexample: its month is the integer
`202513`, every other field coerces. -/
def c8rec : RawRecord :=
  ⟨some (.pyStr "California"), some (.pyStr "CA"), some (.pyInt 202513),
   some (.pyFloat 5), some .pyNone, some (.pyStr "bls")⟩

/-- Two publishable rows sharing `(state_code, month_canonical)` but with
different current rates: dedupe-distinct, so both reach the pivot (C6
counterexample). -/
def c6row1 : ValidatedRow := ⟨"California", "CA", "2025-01", some 5, none, "s", 2, [], true⟩

def c6row2 : ValidatedRow := ⟨"California", "CA", "2025-01", some 6, none, "s", 3, [], true⟩

/-- Two publishable rows of distinct months (C6 witness). -/
def c6row3 : ValidatedRow := ⟨"Texas", "TX", "2025-02", some 4, some 3, "s", 4, [], true⟩

/-! ### Helper lemmas -/

theorem conflictStep_pub_mono (l : List ValidatedRow) (r : ValidatedRow) :
    (conflictStep l r).is_publishable = true → r.is_publishable = true := by
  unfold conflictStep
  cases hr : r.unemployment_rate with
  | none => exact fun h => h
  | some v =>
    by_cases hp : r.is_publishable
    · exact fun _ => hp
    · simp [hp]

theorem imputeStep_pub_eq (l : List ValidatedRow) (r : ValidatedRow) :
    (imputeStep l r).is_publishable = r.is_publishable := by
  unfold imputeStep
  split
  · split
    · rfl
    · split
      · rfl
      · rfl
  · rfl

theorem checkRateConflicts_get (l : List ValidatedRow) (i : Nat) :
    (checkRateConflicts l)[i]? = (l[i]?).map (conflictStep l) := by
  simp [checkRateConflicts, List.getElem?_map]

theorem checkPrevMonthImputed_get (l : List ValidatedRow) (i : Nat) :
    (checkPrevMonthImputed l)[i]? = (l[i]?).map (imputeStep l) := by
  simp [checkPrevMonthImputed, List.getElem?_map]

/-! ### C2 -/

/-- C2: publish-gate boundary.  `_check_publish_gate` returns `false` iff the
number of fully-unpublishable state codes divided by the constant 50 is
strictly greater than 0.40; with exactly 20 fully-unpublishable states the
gate passes, with 21 it fails; and a state code with at least one publishable
row is never counted as fully unpublishable. -/
theorem C2_publish_gate_boundary (l : List ValidatedRow) :
    (checkPublishGate l = false ↔
      ((fullyUnpublishableStates l).length : Rat) / (TOTAL_STATES : Rat) >
        PUBLISH_GATE_THRESHOLD) ∧
    ((fullyUnpublishableStates l).length = 20 → checkPublishGate l = true) ∧
    ((fullyUnpublishableStates l).length = 21 → checkPublishGate l = false) ∧
    (∀ s : String, (∃ r ∈ l, r.state_code = s ∧ r.is_publishable = true) →
      s ∉ fullyUnpublishableStates l) := by
  refine ⟨?_, ?_, ?_, ?_⟩
  · unfold checkPublishGate
    by_cases h : ((fullyUnpublishableStates l).length : Rat) / (TOTAL_STATES : Rat) >
        PUBLISH_GATE_THRESHOLD <;> simp [h]
  · intro h
    unfold checkPublishGate
    rw [h]
    norm_num [TOTAL_STATES, PUBLISH_GATE_THRESHOLD]
  · intro h
    unfold checkPublishGate
    rw [h]
    norm_num [TOTAL_STATES, PUBLISH_GATE_THRESHOLD]
  · rintro s ⟨r, hr, hsc, hpub⟩ hmem
    have hall := (List.mem_filter.mp hmem).2
    have := List.all_eq_true.mp hall r hr
    simp [hsc, hpub] at this

theorem C2_witness :
    checkPublishGate (gateRows 20) = true ∧
    checkPublishGate (gateRows 21) = false ∧
    "NY" ∉ fullyUnpublishableStates nyRows :=
  ⟨(C2_publish_gate_boundary (gateRows 20)).2.1 (by decide),
   (C2_publish_gate_boundary (gateRows 21)).2.2.1 (by decide),
   (C2_publish_gate_boundary nyRows).2.2.2 "NY"
     ⟨⟨"New York", "NY", "2025-01", some 5, none, "s", 2, [], true⟩,
      by decide, rfl, rfl⟩⟩

/-! ### C4 -/

/-- C4: across the two reconciliation passes, `is_publishable` may flip from
`true` to `false` but never from `false` to `true`: a `true` verdict after
either single pass, or after their composition as run by `run_validation`,
implies a `true` verdict before, and a `false` verdict before persists. -/
theorem C4_verdict_monotone (l : List ValidatedRow) (i : Nat) :
    ((checkRateConflicts l)[i]?.map (·.is_publishable) = some true →
      l[i]?.map (·.is_publishable) = some true) ∧
    ((checkPrevMonthImputed l)[i]?.map (·.is_publishable) = some true →
      l[i]?.map (·.is_publishable) = some true) ∧
    ((checkPrevMonthImputed (checkRateConflicts l))[i]?.map (·.is_publishable) = some true →
      l[i]?.map (·.is_publishable) = some true) ∧
    (l[i]?.map (·.is_publishable) = some false →
      (checkPrevMonthImputed (checkRateConflicts l))[i]?.map (·.is_publishable) =
        some false) := by
  have h1 : ∀ (m : List ValidatedRow) (j : Nat),
      (checkRateConflicts m)[j]?.map (·.is_publishable) = some true →
      m[j]?.map (·.is_publishable) = some true := by
    intro m j h
    rw [checkRateConflicts_get] at h
    cases hm : m[j]? with
    | none => rw [hm] at h; simp at h
    | some r =>
      rw [hm] at h
      simp only [Option.map_some'] at h ⊢
      exact congrArg some (conflictStep_pub_mono m r (Option.some.inj h))
  have h2 : ∀ (m : List ValidatedRow) (j : Nat),
      (checkPrevMonthImputed m)[j]?.map (·.is_publishable) =
        m[j]?.map (·.is_publishable) := by
    intro m j
    rw [checkPrevMonthImputed_get]
    cases hm : m[j]? with
    | none => simp
    | some r => simp [imputeStep_pub_eq]
  refine ⟨h1 l i, ?_, ?_, ?_⟩
  · intro h; rw [h2] at h; exact h
  · intro h; rw [h2] at h; exact h1 l i h
  · intro h
    rw [h2, checkRateConflicts_get]
    cases hm : l[i]? with
    | none => rw [hm] at h; simp at h
    | some r =>
      rw [hm] at h
      simp only [Option.map_some'] at h ⊢
      have hr : r.is_publishable = false := Option.some.inj h
      cases hc : (conflictStep l r).is_publishable with
      | false => rfl
      | true =>
        have := conflictStep_pub_mono l r hc
        rw [hr] at this
        exact absurd this (by simp)

theorem C4_witness :
    [(⟨"New York", "NY", "2025-01", none, none, "s", 2, ["missing_rate"],
        false⟩ : ValidatedRow)][0]?.map (·.is_publishable) = some false →
    (checkPrevMonthImputed (checkRateConflicts
      [⟨"New York", "NY", "2025-01", none, none, "s", 2, ["missing_rate"],
        false⟩]))[0]?.map (·.is_publishable) = some false :=
  (C4_verdict_monotone
    [⟨"New York", "NY", "2025-01", none, none, "s", 2, ["missing_rate"], false⟩]
    0).2.2.2

/-! ### C7 -/

/-- C7 counterexample: the claim omits the publishability guard of
`_check_prev_month_imputed`.  `c7row1` carries `missing_prev_month`, its
implied prior month `2025-01` is in the will-have-value set (via `c7row2`),
but because `c7row1` is unpublishable the pass leaves it unchanged — it does
not gain `prev_month_imputed` as the claim states. -/
theorem C7_counterexample :
    c7row1.qa_flags.contains "missing_prev_month" = true ∧
    prevMonth c7row1.month_canonical = some "2025-01" ∧
    hasPivotValue [c7row1, c7row2] c7row1.state_code "2025-01" = true ∧
    (checkPrevMonthImputed [c7row1, c7row2])[0]? = some c7row1 ∧
    imputedFlag "2025-01" ∉ c7row1.qa_flags := by
  refine ⟨by decide, by decide, by decide, by decide, by decide⟩

/-- C7 (amended): the pass never changes `is_publishable`, and every
**publishable** row flagged `missing_prev_month` whose implied prior month
is in the will-have-value set gains exactly the informational flag
`prev_month_imputed: sourced from <month>`. -/
theorem C7_imputation_pass (l : List ValidatedRow) (i : Nat) (r : ValidatedRow)
    (hget : l[i]? = some r) :
    ((checkPrevMonthImputed l)[i]?.map (·.is_publishable) = some r.is_publishable) ∧
    (r.is_publishable = true → r.qa_flags.contains "missing_prev_month" = true →
      ∀ p, prevMonth r.month_canonical = some p →
        hasPivotValue l r.state_code p = true →
        (checkPrevMonthImputed l)[i]? =
          some { r with qa_flags := r.qa_flags ++ [imputedFlag p] }) := by
  constructor
  · rw [checkPrevMonthImputed_get, hget]
    simp [imputeStep_pub_eq]
  · intro hpub hflag p hprev hval
    rw [checkPrevMonthImputed_get, hget]
    simp only [Option.map_some']
    unfold imputeStep
    rw [if_pos ⟨hpub, hflag⟩]
    split
    · rename_i heq
      rw [heq] at hprev
      exact Option.noConfusion hprev
    · rename_i p' heq
      rw [heq] at hprev
      obtain rfl : p' = p := Option.some.inj hprev
      rw [if_pos hval]

theorem C7_witness :
    (checkPrevMonthImputed [c7row2, c7row3])[0]? =
      some { c7row2 with qa_flags := c7row2.qa_flags ++ [imputedFlag "2024-12"] } :=
  (C7_imputation_pass [c7row2, c7row3] 0 c7row2 (by decide)).2 (by decide) (by decide)
    "2024-12" (by decide) (by decide)

/-! ### C3 -/

/-- C3 counterexample: the clause "the claiming row's flags and publishability
are unchanged by this pass" fails.  In `[c3A, c3B, c3C]`, row `c3A` is
publishable with current rate 27 and the claims map holds the differing claim
`(5, source row 3)` coming from `c3B` — yet the same pass also changes `c3B`
(it conflicts with `c3C`'s claim), so the claiming row is not unchanged. -/
theorem C3_counterexample :
    c3A.is_publishable = true ∧
    c3A.unemployment_rate = some 27 ∧
    firstConflict (prevClaims [c3A, c3B, c3C] (c3A.state_code, c3A.month_canonical)) 27 =
      some (5, 3) ∧
    c3B.source_row_index = 3 ∧
    (checkRateConflicts [c3A, c3B, c3C])[1]? ≠ some c3B := by
  refine ⟨by decide, by decide, by decide, by decide, by decide⟩

/-- C3 (amended): after `_check_rate_conflicts` — with the claims map built
from rows publishable at pass start with non-null prior rate, keyed by
(state_code, month minus one) — every row that was publishable with a
non-null current rate for which the map holds a differing claim gains exactly
one `rate_conflict` flag (from the first conflicting claim) and becomes
unpublishable; every row not meeting that conflict condition — in particular
a claiming row without a conflict of its own — is unchanged by the pass.
(The unrestricted "claiming rows are unchanged" clause of the claim is
refuted by `C3_counterexample`.) -/
theorem C3_rate_conflict_pass (l : List ValidatedRow) (i : Nat) (r : ValidatedRow)
    (hget : l[i]? = some r) :
    (∀ v ci, r.is_publishable = true → r.unemployment_rate = some v →
      firstConflict (prevClaims l (r.state_code, r.month_canonical)) v = some ci →
      (checkRateConflicts l)[i]? =
        some { r with qa_flags := r.qa_flags ++ [rateConflictFlag v ci.1 ci.2]
                      is_publishable := false }) ∧
    ((∀ v, r.is_publishable = true → r.unemployment_rate = some v →
        firstConflict (prevClaims l (r.state_code, r.month_canonical)) v = none) →
      (checkRateConflicts l)[i]? = some r) := by
  constructor
  · intro v ci hpub hrate hfc
    rw [checkRateConflicts_get, hget]
    simp only [Option.map_some']
    unfold conflictStep
    split
    · rename_i heq
      rw [heq] at hrate
      exact Option.noConfusion hrate
    · rename_i v' heq
      rw [heq] at hrate
      obtain rfl : v' = v := Option.some.inj hrate
      rw [if_pos hpub]
      split
      · rename_i ci' heq2
        rw [hfc] at heq2
        obtain rfl : ci = ci' := Option.some.inj heq2
        rfl
      · rename_i heq2
        rw [hfc] at heq2
        exact Option.noConfusion heq2
  · intro hnc
    rw [checkRateConflicts_get, hget]
    simp only [Option.map_some']
    unfold conflictStep
    split
    · rfl
    · rename_i v' heq
      by_cases hpub : r.is_publishable = true
      · rw [if_pos hpub]
        split
        · rename_i ci' heq2
          rw [hnc v' hpub heq] at heq2
          exact Option.noConfusion heq2
        · rfl
      · rw [if_neg hpub]

theorem C3_witness :
    (checkRateConflicts [c3A, c3B])[0]? =
      some { c3A with qa_flags := c3A.qa_flags ++ [rateConflictFlag 27 5 3]
                      is_publishable := false } ∧
    (checkRateConflicts [c3A, c3B])[1]? = some c3B :=
  ⟨(C3_rate_conflict_pass [c3A, c3B] 0 c3A (by decide)).1 27 (5, 3)
      (by decide) (by decide) (by decide),
   (C3_rate_conflict_pass [c3A, c3B] 1 c3B (by decide)).2
      (fun v _ hv => by
        have h7 : (7 : Rat) = v := Option.some.inj hv
        subst h7
        decide)⟩

/-! ### C8 -/

/-- C8 counterexample: a raw record whose month field is not a string is NOT
dropped — `_validate_row` first coerces the month via `str(...)`, so the
record yields a `ValidatedRow` (flagged `unparseable_date`) instead of the
drop the claim asserts. -/
theorem C8_counterexample :
    c8rec.month = some (PyVal.pyInt 202513) ∧
    (validateRow c8rec 2).isSome = true := by
  exact ⟨rfl, by decide⟩

/-- C8 (amended): `_validate_row` returns a `ValidatedRow` or drops the row
(returns `None`) exactly when a mandatory field fails pydantic coercion
**after** the month field has been coerced to a string via `str(...)`; in
particular a raw record whose month is a non-string number is never dropped
for that reason: whenever the remaining fields coerce, a `ValidatedRow` is
produced. -/
theorem C8_structural_drop (raw : RawRecord) (idx : Nat) :
    (validateRow raw idx = none ↔
      pydanticRawRow { raw with month := raw.month.map coerceMonthVal } = none) ∧
    (∀ n : Int, raw.month = some (PyVal.pyInt n) →
      ∀ st sc src : String, ∀ ur up : Option Rat,
        raw.state = some (.pyStr st) → raw.state_code = some (.pyStr sc) →
        raw.source = some (.pyStr src) →
        coerceRatField raw.unemployment_rate = some ur →
        coerceRatField raw.unemployment_rate_prev_month = some up →
        ∃ vr, validateRow raw idx = some vr) := by
  constructor
  · unfold validateRow
    cases h : pydanticRawRow { raw with month := raw.month.map coerceMonthVal } with
    | none => simp [h]
    | some r => simp [h]
  · intro n hm st sc src ur up hst hsc hsrc hur hup
    refine ⟨businessChecks ⟨st, sc, pyStrip (toString n), ur, up, src⟩ idx, ?_⟩
    unfold validateRow pydanticRawRow
    simp [hm, hst, hsc, hsrc, hur, hup, coerceMonthVal, strOfPyVal, coerceStr,
      Option.bind]

theorem C8_witness :
    ∃ vr, validateRow c8rec 2 = some vr :=
  (C8_structural_drop c8rec 2).2 202513 rfl "California" "CA" "bls"
    (some 5) none rfl rfl rfl rfl rfl

/-! ### Flag-string discrimination helpers -/

theorem ne_of_head_ne {s t : String} (h : s.data.head? ≠ t.data.head?) : s ≠ t :=
  fun e => h (congrArg (fun u : String => u.data.head?) e)

theorem highRateFlag_head (q : Rat) : (highRateFlag q).data.head? = some 'r' := rfl

theorem nameNormalizedFlag_head (a b : String) :
    (nameNormalizedFlag a b).data.head? = some 's' := rfl

theorem dateCorrectedFlag_head (a b : String) :
    (dateCorrectedFlag a b).data.head? = some 'd' := rfl

theorem implausibleRateFlag_head (q : Rat) :
    (implausibleRateFlag q).data.head? = some 'i' := rfl

theorem listPre_unp_unknown (c : String) :
    listPre "unparseable_date".data (unknownStateFlag c).data = false := rfl

theorem listPre_unp_nameNorm (a b : String) :
    listPre "unparseable_date".data (nameNormalizedFlag a b).data = false := rfl

theorem listPre_unp_dateCorr (a b : String) :
    listPre "unparseable_date".data (dateCorrectedFlag a b).data = false := rfl

theorem listPre_unp_implausible (q : Rat) :
    listPre "unparseable_date".data (implausibleRateFlag q).data = false := rfl

theorem listPre_unp_high (q : Rat) :
    listPre "unparseable_date".data (highRateFlag q).data = false := rfl

theorem listPre_unp_missing_rate :
    listPre "unparseable_date".data ("missing_rate" : String).data = false := rfl

theorem listPre_unp_missing_prev :
    listPre "unparseable_date".data ("missing_prev_month" : String).data = false := rfl

theorem eq_of_mem_ite_singleton {α : Type} {g x : α} {c : Prop} [Decidable c]
    (h : g ∈ (if c then [x] else ([] : List α))) : g = x := by
  split at h
  · simpa using h
  · simp at h

theorem not_mem_ite_singleton {α : Type} {g x : α} (h : g ≠ x) (c : Prop) [Decidable c] :
    g ∉ (if c then [x] else ([] : List α)) :=
  fun hm => h (eq_of_mem_ite_singleton hm)

theorem pyWS_eq_false_of_isDigit {c : Char} (h : c.isDigit = true) : pyWS c = false := by
  unfold pyWS
  simp only [Bool.or_eq_false_iff, decide_eq_false_iff_not]
  refine ⟨⟨⟨⟨⟨?_, ?_⟩, ?_⟩, ?_⟩, ?_⟩, ?_⟩ <;>
    (intro he; rw [he] at h; exact absurd h (by decide))

theorem stripChars_seven (a b c d sep e f : Char) (ha : pyWS a = false)
    (hf : pyWS f = false) :
    stripChars [a, b, c, d, sep, e, f] = [a, b, c, d, sep, e, f] := by
  simp [stripChars, List.dropWhile, ha, hf]

/-! ### Reduction of `validateRow` on structurally clean string records -/

theorem validateRow_mkStr (stName code month src : String) (rate prev : Option Rat)
    (idx : Nat) :
    validateRow (mkStrRecord stName code month rate prev src) idx =
      some (businessChecks ⟨stName, code, pyStrip month, rate, prev, src⟩ idx) := by
  cases rate <;> cases prev <;> rfl

theorem businessChecks_known_flags (stName code month src : String)
    (rate prev : Option Rat) (idx : Nat) (st : StateInfo) (mc : String)
    (hst : getStateByCode (pyUpper (pyStrip code)) = some st)
    (hmc : normalizeDate month = some mc) :
    (businessChecks ⟨stName, code, month, rate, prev, src⟩ idx).qa_flags =
      (if pyStrip stName ≠ st.name then [nameNormalizedFlag (pyStrip stName) st.name]
        else []) ++
      (if pyStrip month ≠ mc then [dateCorrectedFlag (pyStrip month) mc] else []) ++
      rateFlagsOf rate ++
      (if prev.isNone then ["missing_prev_month"] else []) := by
  unfold businessChecks
  simp only [hst, hmc]

theorem businessChecks_known_pub (stName code month src : String)
    (rate prev : Option Rat) (idx : Nat) (st : StateInfo) (mc : String)
    (hst : getStateByCode (pyUpper (pyStrip code)) = some st)
    (hmc : normalizeDate month = some mc) :
    (businessChecks ⟨stName, code, month, rate, prev, src⟩ idx).is_publishable =
      ratePubOf rate := by
  unfold businessChecks
  simp only [hst, hmc]
  simp [Option.isSome]

theorem businessChecks_unknown_flags (stName code month src : String)
    (rate prev : Option Rat) (idx : Nat) (mc : String)
    (hst : getStateByCode (pyUpper (pyStrip code)) = none)
    (hmc : normalizeDate month = some mc) :
    (businessChecks ⟨stName, code, month, rate, prev, src⟩ idx).qa_flags =
      [unknownStateFlag (pyUpper (pyStrip code))] ++
      (if pyStrip month ≠ mc then [dateCorrectedFlag (pyStrip month) mc] else []) ++
      rateFlagsOf rate ++
      (if prev.isNone then ["missing_prev_month"] else []) := by
  unfold businessChecks
  simp only [hst, hmc]

theorem businessChecks_unknown_pub (stName code month src : String)
    (rate prev : Option Rat) (idx : Nat) (mc : String)
    (hst : getStateByCode (pyUpper (pyStrip code)) = none)
    (hmc : normalizeDate month = some mc) :
    (businessChecks ⟨stName, code, month, rate, prev, src⟩ idx).is_publishable = false := by
  unfold businessChecks
  simp only [hst, hmc]
  simp [Option.isSome]

theorem listPre_unp_rateFlags (rate : Option Rat) (g : String)
    (hg : g ∈ rateFlagsOf rate) :
    listPre "unparseable_date".data g.data = false := by
  cases rate with
  | none =>
    simp only [rateFlagsOf, List.mem_singleton] at hg
    rw [hg]; exact listPre_unp_missing_rate
  | some q =>
    have hg' : g ∈ (if q < IMPLAUSIBLE_RATE_LOWER_BOUND ∨
        IMPLAUSIBLE_RATE_UPPER_BOUND ≤ q then [implausibleRateFlag q]
        else if RATE_WARNING_THRESHOLD ≤ q then [highRateFlag q] else []) := hg
    by_cases h1 : q < IMPLAUSIBLE_RATE_LOWER_BOUND ∨ IMPLAUSIBLE_RATE_UPPER_BOUND ≤ q
    · rw [if_pos h1] at hg'
      simp only [List.mem_singleton] at hg'
      rw [hg']; exact listPre_unp_implausible q
    · rw [if_neg h1] at hg'
      by_cases h2 : RATE_WARNING_THRESHOLD ≤ q
      · rw [if_pos h2] at hg'
        simp only [List.mem_singleton] at hg'
        rw [hg']; exact listPre_unp_high q
      · rw [if_neg h2] at hg'
        simp at hg'

/-! ### C5 -/

/-- C5: rate plausibility in `_validate_row`.  For a clean string record whose
state code is in the reference table and whose month parses: an absent current
rate yields flag `missing_rate` and an unpublishable row; a present rate `< 0`
or `≥ 100` yields flag `implausible_rate` and an unpublishable row; every
present rate `0 ≤ q < 100` yields a publishable row carrying the non-blocking
flag `rate_unusually_high` exactly when `q ≥ 15`. -/
theorem C5_rate_plausibility (stName code month src : String) (rate prev : Option Rat)
    (idx : Nat)
    (hstate : (getStateByCode (pyUpper (pyStrip code))).isSome = true)
    (hdate : (normalizeDate (pyStrip month)).isSome = true) :
    ∃ vr, validateRow (mkStrRecord stName code month rate prev src) idx = some vr ∧
      (rate = none → "missing_rate" ∈ vr.qa_flags ∧ vr.is_publishable = false) ∧
      (∀ q : Rat, rate = some q → (q < 0 ∨ 100 ≤ q) →
        implausibleRateFlag q ∈ vr.qa_flags ∧ vr.is_publishable = false) ∧
      (∀ q : Rat, rate = some q → 0 ≤ q → q < 100 →
        vr.is_publishable = true ∧ (highRateFlag q ∈ vr.qa_flags ↔ 15 ≤ q)) := by
  obtain ⟨st, hst⟩ := Option.isSome_iff_exists.mp hstate
  obtain ⟨mc, hmc⟩ := Option.isSome_iff_exists.mp hdate
  refine ⟨businessChecks ⟨stName, code, pyStrip month, rate, prev, src⟩ idx,
    validateRow_mkStr stName code month src rate prev idx, ?_, ?_, ?_⟩
  · rintro rfl
    rw [businessChecks_known_flags stName code (pyStrip month) src none prev idx st mc
      hst hmc,
      businessChecks_known_pub stName code (pyStrip month) src none prev idx st mc
      hst hmc]
    simp [List.mem_append, rateFlagsOf, ratePubOf]
  · rintro q rfl hq
    have hq' : q < IMPLAUSIBLE_RATE_LOWER_BOUND ∨ IMPLAUSIBLE_RATE_UPPER_BOUND ≤ q := by
      simpa [IMPLAUSIBLE_RATE_LOWER_BOUND, IMPLAUSIBLE_RATE_UPPER_BOUND] using hq
    rw [businessChecks_known_flags stName code (pyStrip month) src (some q) prev idx st mc
      hst hmc,
      businessChecks_known_pub stName code (pyStrip month) src (some q) prev idx st mc
      hst hmc]
    simp [List.mem_append, rateFlagsOf, ratePubOf, hq']
  · rintro q rfl h0 h100
    have hni : ¬(q < IMPLAUSIBLE_RATE_LOWER_BOUND ∨ IMPLAUSIBLE_RATE_UPPER_BOUND ≤ q) := by
      simp only [IMPLAUSIBLE_RATE_LOWER_BOUND, IMPLAUSIBLE_RATE_UPPER_BOUND, not_or,
        not_lt, not_le]
      exact ⟨h0, h100⟩
    rw [businessChecks_known_flags stName code (pyStrip month) src (some q) prev idx st mc
      hst hmc,
      businessChecks_known_pub stName code (pyStrip month) src (some q) prev idx st mc
      hst hmc]
    have hrf : rateFlagsOf (some q) = (if (15 : Rat) ≤ q then [highRateFlag q] else []) := by
      show (if q < IMPLAUSIBLE_RATE_LOWER_BOUND ∨ IMPLAUSIBLE_RATE_UPPER_BOUND ≤ q then
          [implausibleRateFlag q]
        else if RATE_WARNING_THRESHOLD ≤ q then [highRateFlag q] else []) = _
      rw [if_neg hni]
      simp [RATE_WARNING_THRESHOLD]
    have hrp : ratePubOf (some q) = true := by simp [ratePubOf, hni]
    rw [hrf, hrp]
    refine ⟨rfl, ?_⟩
    by_cases h15 : (15 : Rat) ≤ q
    · rw [if_pos h15]
      exact ⟨fun _ => h15, fun _ => by simp [List.mem_append]⟩
    · rw [if_neg h15]
      constructor
      · intro hmem
        simp only [List.mem_append] at hmem
        rcases hmem with ((h1 | h2) | h3) | h4
        · exact absurd (eq_of_mem_ite_singleton h1)
            (ne_of_head_ne (by rw [highRateFlag_head, nameNormalizedFlag_head]; decide))
        · exact absurd (eq_of_mem_ite_singleton h2)
            (ne_of_head_ne (by rw [highRateFlag_head, dateCorrectedFlag_head]; decide))
        · simp at h3
        · exact absurd (eq_of_mem_ite_singleton h4)
            (ne_of_head_ne (by rw [highRateFlag_head]; decide))
      · intro h
        exact absurd h h15

theorem C5_witness :
    ∃ vr, validateRow (mkStrRecord "California" " ca " "2025/03" (some 16) none "bls")
        5 = some vr ∧
      vr.is_publishable = true ∧ highRateFlag 16 ∈ vr.qa_flags := by
  obtain ⟨vr, h1, _, _, h4⟩ :=
    C5_rate_plausibility "California" " ca " "2025/03" "bls" (some 16) none 5
      (by decide) (by decide)
  obtain ⟨hpub, hiff⟩ := h4 16 rfl (by decide) (by decide)
  exact ⟨vr, h1, hpub, hiff.mpr (by decide)⟩

/-! ### C10 -/

/-- C10: implicit leniency of `_normalize_date`.  Every month string that
strips to four digits, a dash-or-slash, and any two digits — including
non-calendar months such as `2025-13` — is accepted and normalized to
`YYYY-MM` form, so `_validate_row` attaches no `unparseable_date` flag and
the row's publishability is given by the other checks alone, independent of
whether the two-digit month component lies in 01–12. -/
theorem C10_lenient_dates (s : String) (a b c d sep e f : Char)
    (hpat : stripChars s.data = [a, b, c, d, sep, e, f])
    (ha : a.isDigit = true) (hb : b.isDigit = true) (hc : c.isDigit = true)
    (hd : d.isDigit = true) (hsep : sep = '-' ∨ sep = '/')
    (he : e.isDigit = true) (hf : f.isDigit = true) :
    normalizeDate s = some (String.mk [a, b, c, d, '-', e, f]) ∧
    ∀ (stName code src : String) (rate prev : Option Rat) (idx : Nat),
      ∃ vr, validateRow (mkStrRecord stName code s rate prev src) idx = some vr ∧
        (∀ g ∈ vr.qa_flags, listPre "unparseable_date".data g.data = false) ∧
        vr.is_publishable =
          ((getStateByCode (pyUpper (pyStrip code))).isSome && ratePubOf rate) := by
  have hcond : (a.isDigit && b.isDigit && c.isDigit && d.isDigit &&
      (sep = '-' || sep = '/') && e.isDigit && f.isDigit) = true := by
    rcases hsep with h | h <;> simp [ha, hb, hc, hd, he, hf, h]
  have hnorm : ∀ t : List Char, t = [a, b, c, d, sep, e, f] →
      (match t with
        | [a', b', c', d', sep', e', f'] =>
          if a'.isDigit && b'.isDigit && c'.isDigit && d'.isDigit &&
             (sep' = '-' || sep' = '/') && e'.isDigit && f'.isDigit
          then some (String.mk [a', b', c', d', '-', e', f'])
          else none
        | _ => none) = some (String.mk [a, b, c, d, '-', e, f]) := by
    rintro t rfl
    simp [hcond]
  have h1 : normalizeDate s = some (String.mk [a, b, c, d, '-', e, f]) := by
    unfold normalizeDate
    rw [hpat]
    exact hnorm _ rfl
  have hstrip : stripChars (pyStrip s).data = [a, b, c, d, sep, e, f] := by
    show stripChars (stripChars s.data) = _
    rw [hpat]
    exact stripChars_seven a b c d sep e f (pyWS_eq_false_of_isDigit ha)
      (pyWS_eq_false_of_isDigit hf)
  have h2 : normalizeDate (pyStrip s) = some (String.mk [a, b, c, d, '-', e, f]) := by
    unfold normalizeDate
    rw [hstrip]
    exact hnorm _ rfl
  refine ⟨h1, ?_⟩
  intro stName code src rate prev idx
  refine ⟨businessChecks ⟨stName, code, pyStrip s, rate, prev, src⟩ idx,
    validateRow_mkStr stName code s src rate prev idx, ?_⟩
  cases hst : getStateByCode (pyUpper (pyStrip code)) with
  | some st =>
    rw [businessChecks_known_flags stName code (pyStrip s) src rate prev idx st _ hst h2,
      businessChecks_known_pub stName code (pyStrip s) src rate prev idx st _ hst h2]
    constructor
    · intro g hg
      simp only [List.mem_append] at hg
      rcases hg with ((hg1 | hg2) | hg3) | hg4
      · rw [eq_of_mem_ite_singleton hg1]; exact listPre_unp_nameNorm _ _
      · rw [eq_of_mem_ite_singleton hg2]; exact listPre_unp_dateCorr _ _
      · exact listPre_unp_rateFlags rate g hg3
      · rw [eq_of_mem_ite_singleton hg4]; exact listPre_unp_missing_prev
    · simp [Option.isSome]
  | none =>
    rw [businessChecks_unknown_flags stName code (pyStrip s) src rate prev idx _ hst h2,
      businessChecks_unknown_pub stName code (pyStrip s) src rate prev idx _ hst h2]
    constructor
    · intro g hg
      simp only [List.mem_append, List.mem_singleton] at hg
      rcases hg with ((hg1 | hg2) | hg3) | hg4
      · rw [hg1]; exact listPre_unp_unknown _
      · rw [eq_of_mem_ite_singleton hg2]; exact listPre_unp_dateCorr _ _
      · exact listPre_unp_rateFlags rate g hg3
      · rw [eq_of_mem_ite_singleton hg4]; exact listPre_unp_missing_prev
    · simp [hst, Option.isSome]

theorem C10_witness :
    normalizeDate "2025-13" = some (String.mk ['2', '0', '2', '5', '-', '1', '3']) ∧
    ∃ vr, validateRow (mkStrRecord "California" "CA" "2025-13" (some 5) none "bls") 7 =
        some vr ∧
      (∀ g ∈ vr.qa_flags, listPre "unparseable_date".data g.data = false) ∧
      vr.is_publishable = true := by
  have h := C10_lenient_dates "2025-13" '2' '0' '2' '5' '-' '1' '3' (by decide)
    (by decide) (by decide) (by decide) (by decide) (Or.inl rfl) (by decide) (by decide)
  refine ⟨h.1, ?_⟩
  obtain ⟨vr, h1, h2, h3⟩ := h.2 "California" "CA" "bls" (some 5) none 7
  exact ⟨vr, h1, h2, by rw [h3]; decide⟩

/-! ### Month-shape lemmas towards C9 -/

theorem isDigit_ne_dash {c : Char} (h : c.isDigit = true) : c ≠ '-' := by
  intro e
  rw [e] at h
  exact absurd h (by decide)

theorem dropWhile_eq_self_of_head (p : Char → Bool) (l : List Char)
    (h : ∀ c, l.head? = some c → p c = false) : l.dropWhile p = l := by
  cases l with
  | nil => rfl
  | cons c cs => simp [List.dropWhile_cons, h c rfl]

theorem stripChars_eq_self (l : List Char) (hall : ∀ c ∈ l, pyWS c = false) :
    stripChars l = l := by
  unfold stripChars
  rw [dropWhile_eq_self_of_head pyWS l
      (fun c hc => hall c (by cases l with
        | nil => exact Option.noConfusion hc
        | cons x xs => exact (Option.some.inj hc) ▸ List.mem_cons_self x xs)),
    dropWhile_eq_self_of_head pyWS l.reverse
      (fun c hc => hall c (List.mem_reverse.mp (List.mem_of_mem_head? hc))),
    List.reverse_reverse]

theorem normalizeDate_shape (m mc : String) (h : normalizeDate m = some mc) :
    ∃ a b c d e f : Char, mc = String.mk [a, b, c, d, '-', e, f] ∧
      a.isDigit = true ∧ b.isDigit = true ∧ c.isDigit = true ∧ d.isDigit = true ∧
      e.isDigit = true ∧ f.isDigit = true := by
  unfold normalizeDate at h
  split at h
  · rename_i a b c d sep e f heq
    split at h
    · rename_i hcond
      simp only [Bool.and_eq_true, Bool.or_eq_true] at hcond
      exact ⟨a, b, c, d, e, f, (Option.some.inj h).symm, hcond.1.1.1.1.1.1,
        hcond.1.1.1.1.1.2, hcond.1.1.1.1.2, hcond.1.1.1.2, hcond.1.2, hcond.2⟩
    · exact Option.noConfusion h
  · exact Option.noConfusion h

theorem splitDash_month (a b c d e f : Char) (ha : a ≠ '-') (hb : b ≠ '-') (hc : c ≠ '-')
    (hd : d ≠ '-') (he : e ≠ '-') (hf : f ≠ '-') :
    splitDash [a, b, c, d, '-', e, f] = [[a, b, c, d], [e, f]] := by
  simp [splitDash, ha, hb, hc, hd, he, hf]

theorem digitsToNat_all (l : List Char) :
    ∀ acc : Nat, (∀ c ∈ l, c.isDigit = true) → ∃ n, digitsToNat acc l = some n := by
  induction l with
  | nil => exact fun acc _ => ⟨acc, rfl⟩
  | cons c cs ih =>
    intro acc h
    have hc := h c (List.mem_cons_self c cs)
    simp only [digitsToNat, hc, if_true]
    exact ih _ (fun x hx => h x (List.mem_cons_of_mem c hx))

theorem parseDigits_all (c : Char) (cs : List Char)
    (hall : ∀ x ∈ c :: cs, x.isDigit = true) :
    ∃ n, parseDigits (c :: cs) = some n :=
  digitsToNat_all (c :: cs) 0 hall

theorem parseIntChars_digits (c : Char) (cs : List Char)
    (hall : ∀ x ∈ c :: cs, x.isDigit = true) :
    ∃ n : Int, parseIntChars (c :: cs) = some n := by
  have hs : stripChars (c :: cs) = c :: cs :=
    stripChars_eq_self _ (fun x hx => pyWS_eq_false_of_isDigit (hall x hx))
  have hc := hall c (List.mem_cons_self c cs)
  unfold parseIntChars
  rw [hs]
  split
  · rename_i rest heq
    injection heq with h1 _
    rw [h1] at hc
    exact absurd hc (by decide)
  · rename_i rest heq
    injection heq with h1 _
    rw [h1] at hc
    exact absurd hc (by decide)
  · obtain ⟨n, hn⟩ := parseDigits_all c cs hall
    rw [hn]
    exact ⟨n, rfl⟩

theorem prevMonthDate_shape (a b c d e f : Char) (ha : a.isDigit = true)
    (hb : b.isDigit = true) (hc : c.isDigit = true) (hd : d.isDigit = true)
    (he : e.isDigit = true) (hf : f.isDigit = true) :
    ∃ out, prevMonthDate (String.mk [a, b, c, d, '-', e, f]) = some out := by
  have hsd : splitDash (String.mk [a, b, c, d, '-', e, f]).data =
      [[a, b, c, d], [e, f]] := by
    show splitDash [a, b, c, d, '-', e, f] = _
    exact splitDash_month a b c d e f (isDigit_ne_dash ha) (isDigit_ne_dash hb)
      (isDigit_ne_dash hc) (isDigit_ne_dash hd) (isDigit_ne_dash he) (isDigit_ne_dash hf)
  obtain ⟨ny, hy⟩ := parseIntChars_digits a [b, c, d] (by
    intro x hx
    simp only [List.mem_cons, List.not_mem_nil, or_false] at hx
    rcases hx with rfl | rfl | rfl | rfl <;> assumption)
  obtain ⟨nm, hm⟩ := parseIntChars_digits e [f] (by
    intro x hx
    simp only [List.mem_cons, List.not_mem_nil, or_false] at hx
    rcases hx with rfl | rfl <;> assumption)
  unfold prevMonthDate
  rw [hsd]
  show ∃ out, (match parseIntChars [a, b, c, d], parseIntChars [e, f] with
    | some yi, some mi =>
      let mi' := mi - 1
      if mi' = 0 then some (toString (yi - 1) ++ "-" ++ pad2 12 ++ "-01")
      else some (toString yi ++ "-" ++ pad2 mi' ++ "-01")
    | _, _ => none) = some out
  rw [hy, hm]
  show ∃ out, (if nm - 1 = 0 then
      some (toString (ny - 1) ++ "-" ++ pad2 12 ++ "-01")
    else some (toString ny ++ "-" ++ pad2 (nm - 1) ++ "-01")) = some out
  by_cases h0 : nm - 1 = 0
  · rw [if_pos h0]; exact ⟨_, rfl⟩
  · rw [if_neg h0]; exact ⟨_, rfl⟩

/-! ### Field preservation across the reconciliation passes -/

theorem conflictStep_month (l : List ValidatedRow) (r : ValidatedRow) :
    (conflictStep l r).month_canonical = r.month_canonical := by
  unfold conflictStep
  split
  · rfl
  · rename_i v heq
    split
    · split
      · simp [heq]
      · rfl
    · rfl

theorem conflictStep_rate (l : List ValidatedRow) (r : ValidatedRow) :
    (conflictStep l r).unemployment_rate = r.unemployment_rate := by
  unfold conflictStep
  split
  · rfl
  · rename_i v heq
    split
    · split
      · simp [heq]
      · rfl
    · rfl

theorem imputeStep_month (l : List ValidatedRow) (r : ValidatedRow) :
    (imputeStep l r).month_canonical = r.month_canonical := by
  unfold imputeStep
  split
  · split
    · rfl
    · split <;> rfl
  · rfl

theorem imputeStep_rate (l : List ValidatedRow) (r : ValidatedRow) :
    (imputeStep l r).unemployment_rate = r.unemployment_rate := by
  unfold imputeStep
  split
  · split
    · rfl
    · split <;> rfl
  · rfl

/-! ### Projections of `businessChecks` -/

theorem businessChecks_pub_eq (r : RawRowS) (idx : Nat) :
    (businessChecks r idx).is_publishable =
      ((getStateByCode (pyUpper (pyStrip r.state_code))).isSome &&
        (normalizeDate r.month).isSome && ratePubOf r.unemployment_rate) := rfl

theorem businessChecks_month_eq (r : RawRowS) (idx : Nat) :
    (businessChecks r idx).month_canonical =
      (match normalizeDate r.month with | none => r.month | some m => m) := rfl

theorem businessChecks_rate_eq (r : RawRowS) (idx : Nat) :
    (businessChecks r idx).unemployment_rate = r.unemployment_rate := rfl

/-- A publishable output of `_validate_row` has a present rate and a
`YYYY-MM`-shaped canonical month (each blocking check passed). -/
theorem validateRow_pub_good (raw : RawRecord) (idx : Nat) (vr : ValidatedRow)
    (h : validateRow raw idx = some vr) (hpub : vr.is_publishable = true) :
    (∃ q, vr.unemployment_rate = some q) ∧
    (∃ a b c d e f : Char, vr.month_canonical = String.mk [a, b, c, d, '-', e, f] ∧
      a.isDigit = true ∧ b.isDigit = true ∧ c.isDigit = true ∧ d.isDigit = true ∧
      e.isDigit = true ∧ f.isDigit = true) := by
  unfold validateRow at h
  dsimp only [] at h
  split at h
  · exact Option.noConfusion h
  · rename_i r hr
    obtain rfl : businessChecks r idx = vr := Option.some.inj h
    rw [businessChecks_pub_eq] at hpub
    simp only [Bool.and_eq_true] at hpub
    obtain ⟨⟨hst, hdt⟩, hrp⟩ := hpub
    constructor
    · cases hq : r.unemployment_rate with
      | none =>
        rw [hq] at hrp
        exact absurd hrp (by simp [ratePubOf])
      | some q => exact ⟨q, by rw [businessChecks_rate_eq, hq]⟩
    · obtain ⟨mc, hmc⟩ := Option.isSome_iff_exists.mp hdt
      obtain ⟨a, b, c, d, e, f, hshape, h1, h2, h3, h4, h5, h6⟩ :=
        normalizeDate_shape _ _ hmc
      refine ⟨a, b, c, d, e, f, ?_, h1, h2, h3, h4, h5, h6⟩
      rw [businessChecks_month_eq, hmc]
      exact hshape

theorem validateAll_mem (raws : List RawRecord) : ∀ (i : Nat) (vr : ValidatedRow),
    vr ∈ validateAll i raws → ∃ rec idx, validateRow rec idx = some vr := by
  induction raws with
  | nil => intro i vr h; simp [validateAll] at h
  | cons rec rest ih =>
    intro i vr h
    unfold validateAll at h
    split at h
    · rename_i vr' hv
      rcases List.mem_cons.mp h with rfl | h2
      · exact ⟨rec, i, hv⟩
      · exact ih _ _ h2
    · exact ih _ _ h

/-! ### C9 -/

/-- C9: implicit safety invariant.  Every row still publishable after
`_validate_row` and both reconciliation passes has a non-null
`unemployment_rate`, so `_pivot_row`'s unconditionally emitted current-month
point always reads a non-null value: on `run_clean`'s publishable subset the
raising branches of the pivot (`value=None` and an unsplittable month) are
unreachable — `pivotRow` never returns `none` there. -/
theorem C9_publishable_rate_nonnull (raws : List RawRecord) (ingest : String)
    (r2 : ValidatedRow) (hmem : r2 ∈ runValidationRows raws)
    (hpub : r2.is_publishable = true) :
    r2.unemployment_rate ≠ none ∧ pivotRow r2 ingest ≠ none := by
  unfold runValidationRows checkPrevMonthImputed at hmem
  obtain ⟨r1, hr1, rfl⟩ := List.mem_map.mp hmem
  unfold checkRateConflicts at hr1
  obtain ⟨r0, hr0, rfl⟩ := List.mem_map.mp hr1
  obtain ⟨rec, idx, hvr⟩ := validateAll_mem raws 2 r0 hr0
  rw [imputeStep_pub_eq] at hpub
  have hpub0 : r0.is_publishable = true :=
    conflictStep_pub_mono (validateAll 2 raws) r0 hpub
  obtain ⟨⟨q, hq⟩, ⟨a, b, c, d, e, f, hm, h1, h2, h3, h4, h5, h6⟩⟩ :=
    validateRow_pub_good rec idx r0 hvr hpub0
  have hrate2 : (imputeStep (checkRateConflicts (validateAll 2 raws))
      (conflictStep (validateAll 2 raws) r0)).unemployment_rate = some q := by
    rw [imputeStep_rate, conflictStep_rate, hq]
  have hmonth2 : (imputeStep (checkRateConflicts (validateAll 2 raws))
      (conflictStep (validateAll 2 raws) r0)).month_canonical =
      String.mk [a, b, c, d, '-', e, f] := by
    rw [imputeStep_month, conflictStep_month, hm]
  constructor
  · rw [hrate2]; exact fun h => Option.noConfusion h
  · intro hnone
    unfold pivotRow at hnone
    split at hnone
    · rename_i heq
      rw [hrate2] at heq
      exact Option.noConfusion heq
    · rename_i v heq
      split at hnone
      · exact Option.noConfusion hnone
      · rename_i p heqp
        obtain ⟨out, hout⟩ := prevMonthDate_shape a b c d e f h1 h2 h3 h4 h5 h6
        rw [hmonth2, hout] at hnone
        exact Option.noConfusion hnone

/-! ### The lexicographic month order -/

theorem charsLe_refl (l : List Char) : charsLe l l = true := by
  induction l with
  | nil => rfl
  | cons c cs ih => simp [charsLe, ih]

theorem strLe_refl (s : String) : strLe s s = true := charsLe_refl s.data

theorem charsLe_total : ∀ a b : List Char, charsLe a b = true ∨ charsLe b a = true := by
  intro a
  induction a with
  | nil => intro b; exact Or.inl rfl
  | cons x xs ih =>
    intro b
    cases b with
    | nil => exact Or.inr rfl
    | cons y ys =>
      by_cases hxy : x = y
      · subst hxy
        rcases ih ys with h | h
        · exact Or.inl (by simp [charsLe, h])
        · exact Or.inr (by simp [charsLe, h])
      · rcases lt_or_gt_of_ne hxy with hlt | hlt
        · exact Or.inl (by simp [charsLe, hxy, hlt])
        · exact Or.inr (by simp [charsLe, Ne.symm hxy, hlt])

theorem charsLe_trans : ∀ a b c : List Char,
    charsLe a b = true → charsLe b c = true → charsLe a c = true := by
  intro a
  induction a with
  | nil => intro b c _ _; rfl
  | cons x xs ih =>
    intro b c hab hbc
    cases b with
    | nil => exact absurd hab (by simp [charsLe])
    | cons y ys =>
      cases c with
      | nil => exact absurd hbc (by simp [charsLe])
      | cons z zs =>
        by_cases hxy : x = y <;> by_cases hyz : y = z
        · subst hxy; subst hyz
          simp only [charsLe, if_pos rfl] at hab hbc ⊢
          exact ih ys zs hab hbc
        · subst hxy
          simp only [charsLe, if_pos rfl, if_neg hyz] at hbc ⊢
          exact hbc
        · subst hyz
          simp only [charsLe, if_pos rfl, if_neg hxy] at hab ⊢
          exact hab
        · simp only [charsLe, if_neg hxy, if_neg hyz, decide_eq_true_eq] at hab hbc
          have hxz : x < z := lt_trans hab hbc
          simp [charsLe, ne_of_lt hxz, hxz]

theorem charsLe_antisymm : ∀ a b : List Char,
    charsLe a b = true → charsLe b a = true → a = b := by
  intro a
  induction a with
  | nil =>
    intro b _ hba
    cases b with
    | nil => rfl
    | cons y ys => exact absurd hba (by simp [charsLe])
  | cons x xs ih =>
    intro b hab hba
    cases b with
    | nil => exact absurd hab (by simp [charsLe])
    | cons y ys =>
      by_cases hxy : x = y
      · subst hxy
        simp only [charsLe, if_pos rfl] at hab hba
        rw [ih ys hab hba]
      · simp only [charsLe, if_neg hxy, if_neg (Ne.symm hxy), decide_eq_true_eq]
          at hab hba
        exact absurd hba (not_lt_of_gt hab)

theorem strLe_antisymm {s t : String} (h1 : strLe s t = true) (h2 : strLe t s = true) :
    s = t := by
  cases s with
  | mk ds =>
    cases t with
    | mk dt => exact congrArg String.mk (charsLe_antisymm ds dt h1 h2)

theorem monthLe_total (a b : ValidatedRow) : monthLe a b = true ∨ monthLe b a = true :=
  charsLe_total a.month_canonical.data b.month_canonical.data

theorem monthLe_trans {a b c : ValidatedRow} (h1 : monthLe a b = true)
    (h2 : monthLe b c = true) : monthLe a c = true :=
  charsLe_trans a.month_canonical.data b.month_canonical.data c.month_canonical.data h1 h2

/-! ### C1 -/

/-- C1: revision precedence of the pivot.  For an input to `run_clean`
consisting of exactly the two publishable rows
`A = (state X, month M, current 10.0, prior 9.0)` and
`B = (state X, month M+1, current 4.6, prior 5.0)` (in either order), the
pivot — ascending stable sort by `month_canonical`, current- and prior-month
points, last-write-wins on `(state_code, date)` — yields the value `5.0`,
not `10.0`, at the key `(X, M-01)`, and the revisions-applied counter equals
exactly `1`.  The successor relation "month M+1" is captured by the string
hypotheses: `M < M+1` in the sort order, `_prev_month_date (M+1) = M-01`,
and the four pivot dates are pairwise distinct as the calendar makes them. -/
theorem C1_revision_precedence (ingest X M Mp dA name src : String) (iA iB : Nat)
    (hle : strLe M Mp = true) (hgt : strLe Mp M = false)
    (hprevB : prevMonthDate Mp = some (M ++ "-01"))
    (hprevA : prevMonthDate M = some dA)
    (h1 : dA ≠ M ++ "-01")
    (h2 : Mp ++ "-01" ≠ M ++ "-01")
    (h3 : Mp ++ "-01" ≠ dA)
    (l : List ValidatedRow)
    (hl : l = [⟨name, X, M, some 10, some 9, src, iA, [], true⟩,
               ⟨name, X, Mp, some 4.6, some 5, src, iB, [], true⟩] ∨
          l = [⟨name, X, Mp, some 4.6, some 5, src, iB, [], true⟩,
               ⟨name, X, M, some 10, some 9, src, iA, [], true⟩]) :
    (runCleanPivot ingest l).map
        (fun acc => ((acc.1 (X, M ++ "-01")).map (·.value), acc.2)) =
      some (some 5, 1) := by
  have hMne : M ≠ Mp := by
    intro e
    rw [e] at hgt
    rw [strLe_refl] at hgt
    exact Bool.noConfusion hgt
  have hMne' : Mp ≠ M := Ne.symm hMne
  have hsorted : sortByMonth (dedupe (l.filter (·.is_publishable))) =
      [⟨name, X, M, some 10, some 9, src, iA, [], true⟩,
       ⟨name, X, Mp, some 4.6, some 5, src, iB, [], true⟩] := by
    obtain rfl | rfl := hl
    · have hf : List.filter (·.is_publishable)
          [(⟨name, X, M, some 10, some 9, src, iA, [], true⟩ : ValidatedRow),
           ⟨name, X, Mp, some 4.6, some 5, src, iB, [], true⟩] =
          [⟨name, X, M, some 10, some 9, src, iA, [], true⟩,
           ⟨name, X, Mp, some 4.6, some 5, src, iB, [], true⟩] := rfl
      rw [hf]
      have hd : dedupe
          [(⟨name, X, M, some 10, some 9, src, iA, [], true⟩ : ValidatedRow),
           ⟨name, X, Mp, some 4.6, some 5, src, iB, [], true⟩] =
          [⟨name, X, M, some 10, some 9, src, iA, [], true⟩,
           ⟨name, X, Mp, some 4.6, some 5, src, iB, [], true⟩] := by
        simp [dedupe, dedupeGo, dedupeKey, hMne']
      rw [hd]
      simp [sortByMonth, insertByMonth, monthLe, hle]
    · have hf : List.filter (·.is_publishable)
          [(⟨name, X, Mp, some 4.6, some 5, src, iB, [], true⟩ : ValidatedRow),
           ⟨name, X, M, some 10, some 9, src, iA, [], true⟩] =
          [⟨name, X, Mp, some 4.6, some 5, src, iB, [], true⟩,
           ⟨name, X, M, some 10, some 9, src, iA, [], true⟩] := rfl
      rw [hf]
      have hd : dedupe
          [(⟨name, X, Mp, some 4.6, some 5, src, iB, [], true⟩ : ValidatedRow),
           ⟨name, X, M, some 10, some 9, src, iA, [], true⟩] =
          [⟨name, X, Mp, some 4.6, some 5, src, iB, [], true⟩,
           ⟨name, X, M, some 10, some 9, src, iA, [], true⟩] := by
        simp [dedupe, dedupeGo, dedupeKey, hMne]
      rw [hd]
      simp [sortByMonth, insertByMonth, monthLe, hgt]
  unfold runCleanPivot
  rw [hsorted]
  simp only [pivotGo, pivotRow, hprevA, hprevB, Option.map_some', List.foldl_cons,
    List.foldl_nil, updatePoint, updMap]
  simp [h1, h2, h3, Ne.symm h1, Ne.symm h2, Ne.symm h3,
    (show ¬((10 : Rat) = 5) by norm_num)]

theorem C1_witness :
    (runCleanPivot "ts"
        [⟨"California", "CA", "2025-11", some 10, some 9, "bls", 2, [], true⟩,
         ⟨"California", "CA", "2025-12", some 4.6, some 5, "bls", 3, [], true⟩]).map
        (fun acc => ((acc.1 ("CA", "2025-11" ++ "-01")).map (·.value), acc.2)) =
      some (some 5, 1) :=
  C1_revision_precedence "ts" "CA" "2025-11" "2025-12" "2025-10-01" "California"
    "bls" 2 3 (by decide) (by decide) (by decide) (by decide) (by decide)
    (by decide) (by decide) _ (Or.inl rfl)

theorem C9_witness :
    (⟨"California", "CA", "2025-03", some 5, some 4, "bls", 2, [], true⟩ :
      ValidatedRow).unemployment_rate ≠ none ∧
    pivotRow ⟨"California", "CA", "2025-03", some 5, some 4, "bls", 2, [], true⟩
      "ts" ≠ none :=
  C9_publishable_rate_nonnull
    [mkStrRecord "California" "CA" "2025-03" (some 5) (some 4) "bls"] "ts"
    ⟨"California", "CA", "2025-03", some 5, some 4, "bls", 2, [], true⟩
    (by decide) (by decide)

/-! ### Correctness of the stable insertion sort -/

theorem insertByMonth_perm (x : ValidatedRow) :
    ∀ l : List ValidatedRow, (insertByMonth x l).Perm (x :: l) := by
  intro l
  induction l with
  | nil => exact List.Perm.refl _
  | cons y ys ih =>
    unfold insertByMonth
    by_cases h : monthLe x y = true
    · rw [if_pos h]
    · rw [if_neg h]
      exact ((ih.cons y).trans (List.Perm.swap x y ys))

theorem sortByMonth_perm (l : List ValidatedRow) : (sortByMonth l).Perm l := by
  induction l with
  | nil => exact List.Perm.refl _
  | cons x xs ih =>
    exact ((insertByMonth_perm x (sortByMonth xs)).trans (ih.cons x))

theorem mem_insertByMonth {z x : ValidatedRow} {l : List ValidatedRow}
    (h : z ∈ insertByMonth x l) : z = x ∨ z ∈ l := by
  have := (insertByMonth_perm x l).mem_iff.mp h
  simpa using this

theorem insertByMonth_sorted (x : ValidatedRow) (l : List ValidatedRow)
    (hs : List.Pairwise (fun a b => monthLe a b = true) l) :
    List.Pairwise (fun a b => monthLe a b = true) (insertByMonth x l) := by
  induction l with
  | nil => simp [insertByMonth]
  | cons y ys ih =>
    unfold insertByMonth
    by_cases h : monthLe x y = true
    · rw [if_pos h]
      refine List.pairwise_cons.mpr ⟨?_, hs⟩
      intro b hb
      rcases List.mem_cons.mp hb with rfl | hb2
      · exact h
      · exact monthLe_trans h ((List.pairwise_cons.mp hs).1 b hb2)
    · rw [if_neg h]
      have hyx : monthLe y x = true := by
        rcases monthLe_total x y with h1 | h1
        · exact absurd h1 h
        · exact h1
      refine List.pairwise_cons.mpr ⟨?_, ih (List.pairwise_cons.mp hs).2⟩
      intro b hb
      rcases mem_insertByMonth hb with rfl | hb2
      · exact hyx
      · exact (List.pairwise_cons.mp hs).1 b hb2

theorem sortByMonth_sorted (l : List ValidatedRow) :
    List.Pairwise (fun a b => monthLe a b = true) (sortByMonth l) := by
  induction l with
  | nil => simp [sortByMonth]
  | cons x xs ih => exact insertByMonth_sorted x (sortByMonth xs) ih

/-! ### Locality and commutation of the per-row map update -/

theorem pivotRow_states (r : ValidatedRow) (ingest : String)
    (pts : List CleanRow) (h : pivotRow r ingest = some pts) :
    ∀ p ∈ pts, p.state_code = r.state_code := by
  unfold pivotRow at h
  split at h
  · exact Option.noConfusion h
  · rename_i v heq
    split at h
    · obtain rfl := Option.some.inj h
      intro p hp
      simp only [List.mem_singleton] at hp
      rw [hp]
    · rename_i p0 heqp
      cases hpd : prevMonthDate r.month_canonical with
      | none => rw [hpd] at h; exact Option.noConfusion h
      | some d =>
        rw [hpd] at h
        obtain rfl := Option.some.inj h
        intro p hp
        simp only [List.mem_cons, List.not_mem_nil, or_false] at hp
        rcases hp with rfl | rfl <;> rfl

theorem foldl_updMap_ne (k : String × String) :
    ∀ (pts : List CleanRow) (m : PMap), (∀ p ∈ pts, k ≠ (p.state_code, p.date)) →
      (pts.foldl updMap m) k = m k := by
  intro pts
  induction pts with
  | nil => intro m _; rfl
  | cons p ps ih =>
    intro m hne
    rw [List.foldl_cons, ih (updMap m p) (fun q hq => hne q (List.mem_cons_of_mem p hq))]
    unfold updMap
    rw [if_neg (hne p (List.mem_cons_self p ps))]

theorem foldl_updMap_congr_at (k : String × String) :
    ∀ (pts : List CleanRow) (m m' : PMap), m k = m' k →
      (pts.foldl updMap m) k = (pts.foldl updMap m') k := by
  intro pts
  induction pts with
  | nil => intro m m' h; exact h
  | cons p ps ih =>
    intro m m' h
    rw [List.foldl_cons, List.foldl_cons]
    refine ih (updMap m p) (updMap m' p) ?_
    unfold updMap
    by_cases hk : k = (p.state_code, p.date)
    · rw [if_pos hk, if_pos hk]
    · rw [if_neg hk, if_neg hk]
      exact h

theorem applyRowMap_ne (ingest : String) (m : PMap) (r : ValidatedRow)
    (k : String × String) (h : k.1 ≠ r.state_code) :
    applyRowMap ingest m r k = m k := by
  unfold applyRowMap
  cases hp : pivotRow r ingest with
  | none => rfl
  | some pts =>
    refine foldl_updMap_ne k pts m ?_
    intro p hp2 he
    exact h (by rw [he]; exact (pivotRow_states r ingest pts hp p hp2).symm ▸ rfl)

theorem applyRowMap_congr_at (ingest : String) (m m' : PMap) (r : ValidatedRow)
    (k : String × String) (h : m k = m' k) :
    applyRowMap ingest m r k = applyRowMap ingest m' r k := by
  unfold applyRowMap
  cases hp : pivotRow r ingest with
  | none => exact h
  | some pts => exact foldl_updMap_congr_at k pts m m' h

theorem applyRowMap_comm (ingest : String) (a b : ValidatedRow)
    (hst : a.state_code ≠ b.state_code) (m : PMap) :
    applyRowMap ingest (applyRowMap ingest m a) b =
      applyRowMap ingest (applyRowMap ingest m b) a := by
  funext k
  by_cases hka : k.1 = a.state_code
  · have hkb : k.1 ≠ b.state_code := fun e => hst (hka ▸ e ▸ rfl)
    rw [applyRowMap_ne ingest _ b k hkb,
      applyRowMap_congr_at ingest _ m a k (applyRowMap_ne ingest m b k hkb)]
  · rw [applyRowMap_ne ingest _ a k hka,
      applyRowMap_congr_at ingest _ m b k (applyRowMap_ne ingest m a k hka)]

/-- Pulling a row through a fold across rows of other states. -/
theorem foldl_comm_front (ingest : String) (a : ValidatedRow) :
    ∀ (pre : List ValidatedRow) (m : PMap),
      (∀ x ∈ pre, x.state_code ≠ a.state_code) →
      applyRowMap ingest (pre.foldl (applyRowMap ingest) m) a =
        pre.foldl (applyRowMap ingest) (applyRowMap ingest m a) := by
  intro pre
  induction pre with
  | nil => intro m _; rfl
  | cons x pre' ih =>
    intro m hne
    rw [List.foldl_cons, List.foldl_cons,
      ih (applyRowMap ingest m x) (fun y hy => hne y (List.mem_cons_of_mem x hy)),
      applyRowMap_comm ingest x a (hne x (List.mem_cons_self x pre')) m]

/-- Two sorted permutations of a batch with pairwise-distinct
`(state_code, month_canonical)` produce the same final lookup: the stable
sort fixes the relative order of distinct months, and rows of equal month
necessarily concern different states, whose updates commute. -/
theorem foldl_applyRowMap_perm (ingest : String) :
    ∀ (s₁ s₂ : List ValidatedRow) (m : PMap), s₁.Perm s₂ →
      List.Pairwise (fun a b => monthLe a b = true) s₁ →
      List.Pairwise (fun a b => monthLe a b = true) s₂ →
      List.Pairwise (fun a b : ValidatedRow =>
        (a.state_code, a.month_canonical) ≠ (b.state_code, b.month_canonical)) s₁ →
      s₁.foldl (applyRowMap ingest) m = s₂.foldl (applyRowMap ingest) m := by
  intro s₁
  induction s₁ with
  | nil =>
    intro s₂ m hperm _ _ _
    rw [hperm.symm.eq_nil]
  | cons a t₁ ih =>
    intro s₂ m hperm hs1 hs2 hd1
    have ha2 : a ∈ s₂ := hperm.mem_iff.mp (List.mem_cons_self a t₁)
    obtain ⟨pre, post, rfl⟩ := List.append_of_mem ha2
    have hat1 : a ∉ t₁ := by
      intro hmem
      exact ((List.pairwise_cons.mp hd1).1 a hmem) rfl
    have hapre : a ∉ pre := by
      intro hmem
      have hc := hperm.count_eq a
      rw [List.count_cons_self, List.count_eq_zero.mpr hat1, List.count_append,
        List.count_cons_self] at hc
      have hpos : 0 < List.count a pre := List.count_pos_iff.mpr hmem
      omega
    have hpre : ∀ x ∈ pre, x.state_code ≠ a.state_code := by
      intro x hx
      have hxs2 : x ∈ pre ++ a :: post := List.mem_append.mpr (Or.inl hx)
      have hxt1 : x ∈ t₁ := by
        rcases List.mem_cons.mp (hperm.mem_iff.mpr hxs2) with rfl | h
        · exact absurd hx hapre
        · exact h
      have hax : monthLe a x = true := (List.pairwise_cons.mp hs1).1 x hxt1
      have hxa : monthLe x a = true := by
        have := (List.pairwise_append.mp hs2).2.2 x hx a (List.mem_cons_self a post)
        exact this
      have hmeq : x.month_canonical = a.month_canonical := strLe_antisymm hxa hax
      have hkey := (List.pairwise_cons.mp hd1).1 x hxt1
      intro hstate
      exact hkey (by rw [hstate, hmeq])
    have hsplit : pre ++ a :: post = (pre ++ [a]) ++ post := by
      rw [List.append_assoc, List.singleton_append]
    rw [List.foldl_cons, hsplit, List.foldl_append, List.foldl_append,
      List.foldl_cons, List.foldl_nil,
      foldl_comm_front ingest a pre m hpre, ← List.foldl_append]
    have hperm' : t₁.Perm (pre ++ post) := by
      have h1 : (pre ++ a :: post).Perm (a :: (pre ++ post)) := List.perm_middle
      exact (hperm.trans h1).cons_inv
    have hsub : (pre ++ post).Sublist (pre ++ a :: post) :=
      (List.sublist_cons_self a post).append_left pre
    refine ih (pre ++ post) (applyRowMap ingest m a) hperm'
      (List.Pairwise.of_cons hs1) (hs2.sublist hsub) (List.Pairwise.of_cons hd1)

/-! ### The pivot loop as a map fold -/

theorem pivotGo_none (ingest : String) :
    ∀ (l : List ValidatedRow) (acc : PMap × Nat),
      (∃ r ∈ l, pivotRow r ingest = none) → pivotGo ingest acc l = none := by
  intro l
  induction l with
  | nil => rintro acc ⟨r, hr, _⟩; exact absurd hr (List.not_mem_nil r)
  | cons x xs ih =>
    rintro acc ⟨r, hr, hb⟩
    unfold pivotGo
    rcases List.mem_cons.mp hr with rfl | h2
    · rw [hb]
    · cases hx : pivotRow x ingest with
      | none => rfl
      | some pts => exact ih _ ⟨r, h2, hb⟩

theorem foldl_updatePoint_fst :
    ∀ (pts : List CleanRow) (acc : PMap × Nat),
      (pts.foldl updatePoint acc).1 = pts.foldl updMap acc.1 := by
  intro pts
  induction pts with
  | nil => intro acc; rfl
  | cons p ps ih =>
    intro acc
    rw [List.foldl_cons, List.foldl_cons, ih (updatePoint acc p)]
    rfl

theorem pivotGo_some (ingest : String) :
    ∀ (l : List ValidatedRow) (acc : PMap × Nat),
      (∀ r ∈ l, pivotRow r ingest ≠ none) →
      ∃ n, pivotGo ingest acc l = some (l.foldl (applyRowMap ingest) acc.1, n) := by
  intro l
  induction l with
  | nil => intro acc _; exact ⟨acc.2, rfl⟩
  | cons x xs ih =>
    intro acc hgood
    cases hx : pivotRow x ingest with
    | none => exact absurd hx (hgood x (List.mem_cons_self x xs))
    | some pts =>
      obtain ⟨n, hn⟩ := ih (pts.foldl updatePoint acc)
        (fun r hr => hgood r (List.mem_cons_of_mem x hr))
      refine ⟨n, ?_⟩
      unfold pivotGo
      rw [hx]
      show pivotGo ingest (pts.foldl updatePoint acc) xs = _
      rw [hn, foldl_updatePoint_fst, List.foldl_cons]
      have harm : applyRowMap ingest acc.1 x = pts.foldl updMap acc.1 := by
        unfold applyRowMap
        rw [hx]
      rw [harm]

/-! ### Dedupe is the identity on key-distinct lists -/

theorem dedupeGo_eq_self :
    ∀ (l : List ValidatedRow) (seen : List (String × String × Option Rat × Option Rat)),
      (∀ r ∈ l, dedupeKey r ∉ seen) →
      List.Pairwise (fun a b => dedupeKey a ≠ dedupeKey b) l →
      dedupeGo seen l = l := by
  intro l
  induction l with
  | nil => intro seen _ _; rfl
  | cons r rs ih =>
    intro seen hseen hpw
    unfold dedupeGo
    rw [if_neg (hseen r (List.mem_cons_self r rs))]
    rw [ih (dedupeKey r :: seen) ?_ (List.Pairwise.of_cons hpw)]
    intro x hx hmem
    rcases List.mem_cons.mp hmem with he | hseen2
    · exact ((List.pairwise_cons.mp hpw).1 x hx) he.symm
    · exact hseen x (List.mem_cons_of_mem r hx) hseen2

theorem dedupe_eq_self (l : List ValidatedRow)
    (h : List.Pairwise (fun a b => dedupeKey a ≠ dedupeKey b) l) : dedupe l = l :=
  dedupeGo_eq_self l [] (fun _ _ hmem => List.not_mem_nil _ hmem) h

/-! ### C6 -/

/-- C6 counterexample: the pivot's point set is NOT invariant under every
permutation of an already-deduplicated list of publishable rows.  `c6row1`
and `c6row2` share `(CA, 2025-01)` but differ in their current rates, so
they are dedupe-distinct and both publishable; swapping them swaps which
current-month point survives last-write-wins (5.0 versus 6.0 at
`(CA, 2025-01-01)`). -/
theorem C6_counterexample :
    dedupe [c6row1, c6row2] = [c6row1, c6row2] ∧
    List.Perm [c6row1, c6row2] [c6row2, c6row1] ∧
    [c6row1, c6row2].all (·.is_publishable) = true ∧
    pivotValueMap "ts" [c6row1, c6row2] ≠ pivotValueMap "ts" [c6row2, c6row1] := by
  refine ⟨by decide, List.Perm.swap c6row2 c6row1 [], by decide, ?_⟩
  intro h
  have he := congrArg (fun o => o.map (fun f => f ("CA", "2025-01-01"))) h
  dsimp only [] at he
  have e1 : (pivotValueMap "ts" [c6row1, c6row2]).map
      (fun f => f ("CA", "2025-01-01")) = some (some 6) := by decide
  have e2 : (pivotValueMap "ts" [c6row2, c6row1]).map
      (fun f => f ("CA", "2025-01-01")) = some (some 5) := by decide
  rw [e1, e2] at he
  exact absurd he (by decide)

/-- C6 (amended): permutation invariance of the pivot holds once no two rows
share `(state_code, month_canonical)` — a condition the counterexample shows
cannot be weakened to mere dedupe-distinctness.  For every list of
publishable rows with pairwise-distinct `(state_code, month_canonical)`
(hence already deduplicated) and every permutation of it, the pivot — stable
sort ascending by `month_canonical`, emit points, last-write-wins on
`(state_code, date)` — produces the same set of `(state_code, date, value)`
points. -/
theorem C6_pivot_perm_invariant (ingest : String) (l l' : List ValidatedRow)
    (hperm : l.Perm l')
    (hpub : ∀ r ∈ l, r.is_publishable = true)
    (hdist : List.Pairwise (fun a b : ValidatedRow =>
      (a.state_code, a.month_canonical) ≠ (b.state_code, b.month_canonical)) l) :
    pivotValueMap ingest l = pivotValueMap ingest l' := by
  have hpub' : ∀ r ∈ l', r.is_publishable = true :=
    fun r hr => hpub r (hperm.mem_iff.mpr hr)
  have hdist' : List.Pairwise (fun a b : ValidatedRow =>
      (a.state_code, a.month_canonical) ≠ (b.state_code, b.month_canonical)) l' :=
    ((List.Perm.pairwise_iff (fun h => Ne.symm h) hperm).mp hdist)
  have hf : l.filter (·.is_publishable) = l := List.filter_eq_self.mpr hpub
  have hf' : l'.filter (·.is_publishable) = l' := List.filter_eq_self.mpr hpub'
  have hdk : List.Pairwise (fun a b => dedupeKey a ≠ dedupeKey b) l :=
    hdist.imp (fun h he => h (by
      unfold dedupeKey at he
      simp only [Prod.mk.injEq] at he
      rw [he.1, he.2.1]))
  have hdk' : List.Pairwise (fun a b => dedupeKey a ≠ dedupeKey b) l' :=
    hdist'.imp (fun h he => h (by
      unfold dedupeKey at he
      simp only [Prod.mk.injEq] at he
      rw [he.1, he.2.1]))
  have hd : dedupe l = l := dedupe_eq_self l hdk
  have hd' : dedupe l' = l' := dedupe_eq_self l' hdk'
  unfold pivotValueMap runCleanPivot
  rw [hf, hd, hf', hd']
  by_cases hbad : ∃ r ∈ l, pivotRow r ingest = none
  · obtain ⟨r, hr, hb⟩ := hbad
    rw [pivotGo_none ingest (sortByMonth l) _
        ⟨r, (sortByMonth_perm l).mem_iff.mpr hr, hb⟩,
      pivotGo_none ingest (sortByMonth l') _
        ⟨r, (sortByMonth_perm l').mem_iff.mpr (hperm.mem_iff.mp hr), hb⟩]
  · push_neg at hbad
    have hgood : ∀ r ∈ sortByMonth l, pivotRow r ingest ≠ none :=
      fun r hr => hbad r ((sortByMonth_perm l).mem_iff.mp hr)
    have hgood' : ∀ r ∈ sortByMonth l', pivotRow r ingest ≠ none :=
      fun r hr => hbad r (hperm.mem_iff.mpr ((sortByMonth_perm l').mem_iff.mp hr))
    obtain ⟨n1, h1⟩ := pivotGo_some ingest (sortByMonth l) (fun _ => none, 0) hgood
    obtain ⟨n2, h2⟩ := pivotGo_some ingest (sortByMonth l') (fun _ => none, 0) hgood'
    rw [h1, h2]
    have hperms : (sortByMonth l).Perm (sortByMonth l') :=
      ((sortByMonth_perm l).trans hperm).trans (sortByMonth_perm l').symm
    have hds : List.Pairwise (fun a b : ValidatedRow =>
        (a.state_code, a.month_canonical) ≠ (b.state_code, b.month_canonical))
        (sortByMonth l) :=
      (List.Perm.pairwise_iff (fun h => Ne.symm h) (sortByMonth_perm l)).mpr hdist
    have hmaps := foldl_applyRowMap_perm ingest (sortByMonth l) (sortByMonth l')
      (fun _ => none) hperms (sortByMonth_sorted l) (sortByMonth_sorted l') hds
    rw [hmaps]
    rfl

theorem C6_witness :
    pivotValueMap "ts" [c6row1, c6row3] = pivotValueMap "ts" [c6row3, c6row1] :=
  C6_pivot_perm_invariant "ts" [c6row1, c6row3] [c6row3, c6row1]
    (List.Perm.swap c6row3 c6row1 []) (by decide) (by decide)

end StateUnemp
